import Mathlib
set_option maxRecDepth 200000
set_option maxHeartbeats 4000000

/-!
Verification of the sudoku library (`src/sudoku.rs`).

A grid is a list of 81 cell values in row-major order, `0` = empty, `1..9` =
clue.  The repository's solver and generator modules are not part of the
sources provided, so the search driver and the solver constructor are
modelled from the specification (definitions marked `Modelled from the
spec:`); the puzzle remover (`generate_unique_from`), the shuffle
transformations and the byte constructors are embedded directly from
`src/sudoku.rs`.
-/

/-- A sudoku grid: cells in row-major order; `0` denotes an empty cell. -/
abbrev Grid := List Nat

/-- Value of cell `i`, defaulting to `0` out of range. -/
def cellGet (g : Grid) (i : Nat) : Nat := (g[i]?).getD 0

/-- Two cell indices share a house (row, column or box).
Row = i / 9, Col = i % 9, Box = (Row/3)*3 + (Col/3); two cells are in the
same box iff they agree on i / 27 (band) and i % 9 / 3 (stack). -/
def sameHouse (i j : Nat) : Bool :=
  (i / 9 == j / 9) || (i % 9 == j % 9) || (i / 27 == j / 27 && i % 9 / 3 == j % 9 / 3)

/-- No cell other than `i` holding digit `d` shares a house with cell `i`. -/
def noConflictAt (g : Grid) (i d : Nat) : Bool :=
  (List.range 81).all (fun j => j == i || !(sameHouse i j) || !(cellGet g j == d))

/-- Cell `i` holds a digit 1..9 that conflicts with no other cell. -/
def validCell (g : Grid) (i : Nat) : Bool :=
  decide (1 ≤ cellGet g i) && decide (cellGet g i ≤ 9) && noConflictAt g i (cellGet g i)

/-- The grid is completely filled and satisfies every house constraint. -/
def validatedComplete (g : Grid) : Bool :=
  (List.range 81).all (validCell g)

/-- The nine sudoku digits. -/
def digits : List Nat := [1, 2, 3, 4, 5, 6, 7, 8, 9]

/-- Modelled from the spec: the search driver (§4.D) of the missing solver
module, at cell granularity (the spec allows per-cell candidate branching).
`solsFrom fuel i g` enumerates every completion of `g` obtained by filling
the empty cells `i, i+1, ...` (`fuel` cells remain) with non-conflicting
digits; a leaf is kept when the complete grid satisfies all constraints. -/
def solsFrom : Nat → Nat → Grid → List Grid
  | 0, _, g => if validatedComplete g then [g] else []
  | fuel+1, i, g =>
    if cellGet g i = 0 then
      (digits.filter (fun d => noConflictAt g i d)).foldr
        (fun d acc => solsFrom fuel (i+1) (g.set i d) ++ acc) []
    else solsFrom fuel (i+1) g

/-- Modelled from the spec: the counting variant of the search driver with a
solution `limit`; the search unwinds as soon as `limit` solutions are found. -/
def countFrom : Nat → Nat → Grid → Nat → Nat → Nat
  | 0, _, g, limit, cnt =>
    if limit ≤ cnt then cnt else if validatedComplete g then cnt + 1 else cnt
  | fuel+1, i, g, limit, cnt =>
    if limit ≤ cnt then cnt
    else if cellGet g i = 0 then
      (digits.filter (fun d => noConflictAt g i d)).foldl
        (fun acc d => countFrom fuel (i+1) (g.set i d) limit acc) cnt
    else countFrom fuel (i+1) g limit cnt

/-- Modelled from the spec: `SudokuSolver::from_sudoku` of the missing solver
module succeeds iff the grid is 81 cells of values at most 9 and no two
clues conflict under the row/col/box constraints (§6 `new_from_grid`). -/
def fromSudokuOk (g : Grid) : Bool :=
  g.length == 81 &&
    (List.range 81).all
      (fun i => decide (cellGet g i ≤ 9) && (cellGet g i == 0 || noConflictAt g i (cellGet g i)))

/-- `Sudoku::count_at_most` (src/sudoku.rs:517): build the solver (failures
give zero solutions) and count solutions up to `limit`; the search itself is
modelled from the spec. -/
def Sudoku.count_at_most (g : Grid) (limit : Nat) : Nat :=
  if fromSudokuOk g then countFrom 81 0 g limit 0 else 0

/-- `Sudoku::is_uniquely_solvable` (src/sudoku.rs:525). -/
def Sudoku.is_uniquely_solvable (g : Grid) : Bool :=
  Sudoku.count_at_most g 2 == 1

/-- `Sudoku::solve_at_most` (src/sudoku.rs:531): construction failure yields
an empty vector; the enumeration itself is modelled from the spec. -/
def Sudoku.solve_at_most (g : Grid) (limit : Nat) : List Grid :=
  if fromSudokuOk g then (solsFrom 81 0 g).take limit else []

/-- Modelled from the spec: `is_solved` (§4.D) of the missing solver module:
all 81 cells filled and all invariants hold. -/
def Sudoku.is_solved (g : Grid) : Bool :=
  g.length == 81 && validatedComplete g

/-- Population count of the low 16 bits, mirroring `u16::count_ones`. -/
def countOnes16 (n : Nat) : Nat :=
  ((List.range 16).filter (fun k => n.testBit k)).length

/-- `Sudoku::solve_unique` (src/sudoku.rs:491): without at least 17 clues and
at least 8 distinct digits it returns `None` without searching; otherwise it
solves with limit 2 and returns the solution iff it is unique. -/
def Sudoku.solve_unique (g : Grid) : Option Grid :=
  let numsContained : Nat := g.foldl (fun m n => if n = 0 then m else m ||| (1 <<< n)) 0
  let nClues : Nat := (g.filter (fun n => n ≠ 0)).length
  if nClues < 17 ∨ countOnes16 numsContained < 8 then none
  else
    match Sudoku.solve_at_most g 2 with
    | [s] => some s
    | _ => none

/-- `Sudoku::from_bytes` (src/sudoku.rs:239): `Err(())` is rendered `none`. -/
def Sudoku.from_bytes (bytes : Grid) : Option Grid :=
  if bytes.all (fun b => b ≤ 9) then some bytes else none

/-- `Sudoku::from_bytes_slice` (src/sudoku.rs:224). -/
def Sudoku.from_bytes_slice (bytes : Grid) : Option Grid :=
  if bytes.length ≠ 81 then none
  else if bytes.all (fun b => b ≤ 9) then some bytes else none

/-- `s` is a solution of `g`: a complete valid grid extending `g`'s clues. -/
def isSolutionOf (s g : Grid) : Prop :=
  s.length = 81 ∧ validatedComplete s = true ∧
    ∀ j, cellGet g j ≠ 0 → cellGet s j = cellGet g j

/-- All solutions of a grid. -/
def solutionSet (g : Grid) : Set Grid := {s | isSolutionOf s g}

/-- `h` is `g` with some cells blanked: pointwise each cell is unchanged or 0. -/
def leBlank (h g : Grid) : Prop :=
  ∀ i, cellGet h i = cellGet g i ∨ cellGet h i = 0

/-- Cell `c` of `s` is blank, or blanking it leaves at least two solutions. -/
def removedOK (s : Grid) (c : Nat) : Prop :=
  cellGet s c = 0 ∨ 2 ≤ (solutionSet (s.set c 0)).ncard

/-- Invariant of the remover loops: the working grid is uniquely solvable,
81 cells long, and every already-processed cell is blank or locked. -/
def removerInv (s : Grid) (P : Nat → Prop) : Prop :=
  Sudoku.is_uniquely_solvable s = true ∧ s.length = 81 ∧ ∀ c, P c → removedOK s c

/- ---------- the puzzle remover, embedded from src/sudoku.rs:144-219 ---------- -/

/-- Blank every cell in `cells` (the batch step of `generate_unique_from`). -/
def removeAll (cells : List Nat) (g : Grid) : Grid :=
  cells.foldl (fun h c => h.set c 0) g

/-- Blank cell `c` if the result stays uniquely solvable, else keep `g`. -/
def tryRemove (g : Grid) (c : Nat) : Grid :=
  let t := g.set c 0
  if Sudoku.is_uniquely_solvable t then t else g

/-- Batch phase of `generate_unique_from`: blank the first 20 cells at once;
if not uniquely solvable, retry those cells one at a time. -/
def phase1 (order : List Nat) (g : Grid) : Grid :=
  let tmp := removeAll (order.take 20) g
  if Sudoku.is_uniquely_solvable tmp then tmp
  else (order.take 20).foldl tryRemove g

/-- Paired-removal step of `generate_unique_from` (src/sudoku.rs:178-208). -/
def pairStep (g : Grid) (c1 c2 : Nat) : Grid :=
  let t := (g.set c1 0).set c2 0
  if Sudoku.is_uniquely_solvable t then t
  else
    let t2 := t.set c2 (cellGet g c2)
    if Sudoku.is_uniquely_solvable t2 then t2
    else
      let t3 := (t2.set c1 (cellGet g c1)).set c2 0
      if Sudoku.is_uniquely_solvable t3 then t3 else g

/-- Group a list into consecutive pairs, dropping a dangling element. -/
def toPairs : List Nat → List (Nat × Nat)
  | c1 :: c2 :: rest => (c1, c2) :: toPairs rest
  | _ => []

/-- Paired phase of `generate_unique_from` over cells 20..50 of the order. -/
def phase2 (ps : List (Nat × Nat)) (g : Grid) : Grid :=
  ps.foldl (fun h p => pairStep h p.1 p.2) g

/-- Single-cell phase of `generate_unique_from` over cells 50..80. -/
def phase3 (cells : List Nat) (g : Grid) : Grid :=
  cells.foldl tryRemove g

/-- `Sudoku::generate_unique_from` (src/sudoku.rs:144), with the random cell
order made an explicit argument. -/
def Sudoku.generate_unique_from (order : List Nat) (g : Grid) : Grid :=
  phase3 (order.drop 50) (phase2 (toPairs ((order.drop 20).take 30)) (phase1 order g))

/-- `Sudoku::generate_unique` (src/sudoku.rs:134): the randomly generated
filled grid comes from the missing generator module; modelled from the spec
as an explicit argument (spec §6: `generate_filled` always yields a solved
grid), as is the random cell order. -/
def Sudoku.generate_unique (filled : Grid) (order : List Nat) : Grid :=
  Sudoku.generate_unique_from order filled

/- ---------- shuffle, embedded from src/sudoku.rs:580-711 ---------- -/

/-- Swap the contents of cells `i` and `j` (one step of `swap_cells`). -/
def swapVals (g : Grid) (i j : Nat) : Grid :=
  (g.set i (cellGet g j)).set j (cellGet g i)

/-- `swap_cells` (src/sudoku.rs:702): swap each listed pair of cells in turn. -/
def applyPairs (ps : List (Nat × Nat)) (g : Grid) : Grid :=
  ps.foldl (fun h p => swapVals h p.1 p.2) g

/-- The flattened list of indices touched by a swap list. -/
def pairIndices (ps : List (Nat × Nat)) : List Nat :=
  ps.foldr (fun p acc => p.1 :: p.2 :: acc) []

/-- The cell permutation induced by a list of disjoint swaps. -/
def permOfPairs (ps : List (Nat × Nat)) (k : Nat) : Nat :=
  match ps.find? (fun p => p.1 == k || p.2 == k) with
  | some p => if p.1 = k then p.2 else p.1
  | none => k

/-- Soundness conditions for a swap list: indices are distinct and in range,
the induced cell permutation is an involution of the 81 cells and preserves
the house relation. -/
def pairsOk (ps : List (Nat × Nat)) : Bool :=
  decide ((pairIndices ps).Nodup) &&
  ps.all (fun p => decide (p.1 < 81) && decide (p.2 < 81)) &&
  (List.range 81).all (fun k => permOfPairs ps (permOfPairs ps k) == k) &&
  (List.range 81).all (fun i =>
    (List.range 81).all (fun j =>
      sameHouse (permOfPairs ps i) (permOfPairs ps j) == sameHouse i j))

/-- The cell pairs swapped by `swap_cols col1 col2` (src/sudoku.rs:661). -/
def colPairs (c1 c2 : Nat) : List (Nat × Nat) :=
  (List.range 9).map (fun row => (row * 9 + c1, row * 9 + c2))

/-- The cell pairs swapped by `swap_rows row1 row2` (src/sudoku.rs:651). -/
def rowPairs (r1 r2 : Nat) : List (Nat × Nat) :=
  (List.range 9).map (fun i => (r1 * 9 + i, r2 * 9 + i))

/-- The cell pairs swapped by `transpose` (src/sudoku.rs:691). -/
def transposePairs : List (Nat × Nat) :=
  (List.range 9).foldr
    (fun row acc => ((List.range' (row+1) (8 - row)).map
      (fun col => (row * 9 + col, col * 9 + row))) ++ acc) []

/-- `Sudoku::swap_cols` (src/sudoku.rs:661). -/
def Sudoku.swap_cols (g : Grid) (c1 c2 : Nat) : Grid :=
  if c1 = c2 then g else applyPairs (colPairs c1 c2) g

/-- `Sudoku::swap_rows` (src/sudoku.rs:651). -/
def Sudoku.swap_rows (g : Grid) (r1 r2 : Nat) : Grid :=
  if r1 = r2 then g else applyPairs (rowPairs r1 r2) g

/-- `Sudoku::swap_stacks` (src/sudoku.rs:671). -/
def Sudoku.swap_stacks (g : Grid) (s1 s2 : Nat) : Grid :=
  if s1 = s2 then g
  else
    Sudoku.swap_cols (Sudoku.swap_cols (Sudoku.swap_cols g
      (s1*3) (s2*3)) (s1*3+1) (s2*3+1)) (s1*3+2) (s2*3+2)

/-- `Sudoku::swap_bands` (src/sudoku.rs:681), embedded exactly as written:
the body calls `swap_cols` on `band*3+inner_row`, so it swaps column groups. -/
def Sudoku.swap_bands (g : Grid) (b1 b2 : Nat) : Grid :=
  if b1 = b2 then g
  else
    Sudoku.swap_cols (Sudoku.swap_cols (Sudoku.swap_cols g
      (b1*3) (b2*3)) (b1*3+1) (b2*3+1)) (b1*3+2) (b2*3+2)

/-- `Sudoku::transpose` (src/sudoku.rs:691). -/
def Sudoku.transpose (g : Grid) : Grid :=
  applyPairs transposePairs g

/-- One swap of the manual Fisher-Yates decode in `shuffle_digits`. -/
def listSwap (ds : List Nat) (i j : Nat) : List Nat :=
  (ds.set i (cellGet ds j)).set j (cellGet ds i)

/-- The Lehmer-code decode loop of `shuffle_digits` (src/sudoku.rs:604-609):
for `n` from 9 down to 1, swap positions `n` and `1 + p % n`. -/
def lehmerLoop : Nat → Nat → List Nat → List Nat
  | 0, _, ds => ds
  | n+1, p, ds => lehmerLoop n (p / (n+1)) (listSwap ds (n+1) (1 + p % (n+1)))

/-- The digit relabelling produced by `shuffle_digits` for the random draw `p`. -/
def digitPermOf (p : Nat) : List Nat :=
  lehmerLoop 9 p [0, 1, 2, 3, 4, 5, 6, 7, 8, 9]

/-- `Sudoku::shuffle_digits` (src/sudoku.rs:599), with the draw explicit. -/
def Sudoku.shuffle_digits (p : Nat) (g : Grid) : Grid :=
  g.map (fun num => cellGet (digitPermOf p) num)

/-- `Sudoku::shuffle_bands` (src/sudoku.rs:637): `swap_bands(0, a)` with
`a = gen_range(0,3)` then `swap_bands(1, b)` with `b = gen_range(1,3)`. -/
def Sudoku.shuffle_bands (a b : Nat) (g : Grid) : Grid :=
  Sudoku.swap_bands (Sudoku.swap_bands g 0 a) 1 b

/-- `Sudoku::shuffle_stacks` (src/sudoku.rs:644). -/
def Sudoku.shuffle_stacks (a b : Nat) (g : Grid) : Grid :=
  Sudoku.swap_stacks (Sudoku.swap_stacks g 0 a) 1 b

/-- `Sudoku::shuffle_cols_of_stack` (src/sudoku.rs:627), draws explicit:
`a = gen_range(3*stack, 3*stack+3)`, `b = gen_range(3*stack+1, 3*stack+3)`. -/
def Sudoku.shuffle_cols_of_stack (a b stack : Nat) (g : Grid) : Grid :=
  Sudoku.swap_cols (Sudoku.swap_cols g (stack*3) a) (stack*3+1) b

/-- `Sudoku::shuffle_rows_of_band` (src/sudoku.rs:617), draws explicit. -/
def Sudoku.shuffle_rows_of_band (a b band : Nat) (g : Grid) : Grid :=
  Sudoku.swap_rows (Sudoku.swap_rows g (band*3) a) (band*3+1) b

/-- The random draws consumed by one call of `Sudoku::shuffle`. -/
structure ShuffleDraws where
  permDraw : Nat
  band1 : Nat
  band2 : Nat
  stack1 : Nat
  stack2 : Nat
  col0a : Nat
  col0b : Nat
  col1a : Nat
  col1b : Nat
  col2a : Nat
  col2b : Nat
  row0a : Nat
  row0b : Nat
  row1a : Nat
  row1b : Nat
  row2a : Nat
  row2b : Nat
  doTranspose : Bool

/-- `Sudoku::shuffle` (src/sudoku.rs:580), with all random draws explicit,
applied in the order of the source. -/
def Sudoku.shuffle (d : ShuffleDraws) (g : Grid) : Grid :=
  let g1 := Sudoku.shuffle_digits d.permDraw g
  let g2 := Sudoku.shuffle_bands d.band1 d.band2 g1
  let g3 := Sudoku.shuffle_stacks d.stack1 d.stack2 g2
  let g4 := Sudoku.shuffle_rows_of_band d.row0a d.row0b 0
              (Sudoku.shuffle_cols_of_stack d.col0a d.col0b 0 g3)
  let g5 := Sudoku.shuffle_rows_of_band d.row1a d.row1b 1
              (Sudoku.shuffle_cols_of_stack d.col1a d.col1b 1 g4)
  let g6 := Sudoku.shuffle_rows_of_band d.row2a d.row2b 2
              (Sudoku.shuffle_cols_of_stack d.col2a d.col2b 2 g5)
  if d.doTranspose then Sudoku.transpose g6 else g6

/-- The relabel-and-reindex normal form of a shuffle transform. -/
def gridMap (σ π : Nat → Nat) (g : Grid) : Grid :=
  (List.range 81).map (fun i => σ (cellGet g (π i)))

/-- A well-formed sudoku value: 81 cells, each holding at most 9. -/
def Ok81 (g : Grid) : Prop :=
  g.length = 81 ∧ ∀ i, cellGet g i ≤ 9

/-- Invariant of the digit-relabelling table: 10 entries below 10, injective,
with 0 fixed. -/
def dsInv (ds : List Nat) : Prop :=
  ds.length = 10 ∧ (∀ k, k < 10 → cellGet ds k < 10) ∧
    (∀ a, a < 10 → ∀ b, b < 10 → cellGet ds a = cellGet ds b → a = b) ∧
    cellGet ds 0 = 0

/- ---------- concrete grids used in the end-to-end theorems ---------- -/

/-- A concrete solved grid: cell (r, c) holds ((3*r + r/3 + c) % 9) + 1. -/
def solvedGrid : Grid :=
  (List.range 81).map (fun i => (3 * (i / 9) + (i / 9) / 3 + i % 9) % 9 + 1)

/-- The all-empty grid. -/
def emptyGrid : Grid := List.replicate 81 0

/-- A grid with two 5s in row 0: clues conflict. -/
def conflictGrid : Grid := (List.replicate 81 0).set 0 5 |>.set 1 5

/-- `solvedGrid` corrupted at cell 20 with a duplicate of cell 21's value:
an invalid grid (count 0) that agrees with `solvedGrid` elsewhere. -/
def corruptGrid : Grid := solvedGrid.set 20 (cellGet solvedGrid 21)

/-- A grid whose only clue is a 1 at cell 0. -/
def oneCellGrid : Grid := (List.replicate 81 0).set 0 1

/- ---------- basic cell lemmas ---------- -/

theorem cellGet_of_le {g : Grid} {i : Nat} (h : g.length ≤ i) : cellGet g i = 0 := by
  simp [cellGet, List.getElem?_eq_none h]

theorem cellGet_set_ne (g : Grid) (c v i : Nat) (h : i ≠ c) :
    cellGet (g.set c v) i = cellGet g i := by
  simp [cellGet, List.getElem?_set_ne (Ne.symm h)]

theorem cellGet_set_zero (g : Grid) (c : Nat) : cellGet (g.set c 0) c = 0 := by
  simp only [cellGet, List.getElem?_set_self']
  cases g[c]? <;> simp [Function.const]

theorem cellGet_set_self (g : Grid) (c v : Nat) (h : c < g.length) :
    cellGet (g.set c v) c = v := by
  simp [cellGet, List.getElem?_set_self h]

theorem ext_cellGet {a b : Grid} (hlen : a.length = b.length)
    (h : ∀ j, cellGet a j = cellGet b j) : a = b := by
  apply List.ext_getElem?
  intro n
  by_cases hn : n < a.length
  · have hv := h n
    simp only [cellGet, List.getElem?_eq_getElem hn,
      List.getElem?_eq_getElem (hlen ▸ hn), Option.getD_some] at hv
    rw [List.getElem?_eq_getElem hn, List.getElem?_eq_getElem (hlen ▸ hn), hv]
  · rw [List.getElem?_eq_none (Nat.le_of_not_lt hn),
      List.getElem?_eq_none (hlen ▸ Nat.le_of_not_lt hn)]

/- ---------- Prop characterizations of the Bool checks ---------- -/

theorem noConflictAt_iff (g : Grid) (i d : Nat) :
    noConflictAt g i d = true ↔
      ∀ j, j < 81 → j ≠ i → sameHouse i j = true → cellGet g j ≠ d := by
  simp only [noConflictAt, List.all_eq_true, List.mem_range]
  constructor
  · intro h j hj hne hh hval
    have := h j hj
    simp [hne, hh, hval] at this
  · intro h j hj
    by_cases hji : j = i
    · simp [hji]
    · by_cases hh : sameHouse i j = true
      · have := h j hj hji hh
        simp [hji, hh, this]
      · simp [hji, hh]

theorem validatedComplete_iff (g : Grid) :
    validatedComplete g = true ↔
      ∀ i, i < 81 → (1 ≤ cellGet g i ∧ cellGet g i ≤ 9) ∧
        ∀ j, j < 81 → j ≠ i → sameHouse i j = true → cellGet g j ≠ cellGet g i := by
  simp only [validatedComplete, validCell, List.all_eq_true, List.mem_range,
    Bool.and_eq_true, decide_eq_true_eq, noConflictAt_iff, and_assoc]

theorem fromSudokuOk_iff (g : Grid) :
    fromSudokuOk g = true ↔
      g.length = 81 ∧ ∀ i, i < 81 → cellGet g i ≤ 9 ∧
        (cellGet g i = 0 ∨
          ∀ j, j < 81 → j ≠ i → sameHouse i j = true → cellGet g j ≠ cellGet g i) := by
  simp only [fromSudokuOk, Bool.and_eq_true, beq_iff_eq, List.all_eq_true, List.mem_range,
    decide_eq_true_eq, Bool.or_eq_true, noConflictAt_iff]

theorem mem_digits {d : Nat} : d ∈ digits ↔ 1 ≤ d ∧ d ≤ 9 := by
  simp [digits]
  omega

/- ---------- the bounded count equals the truncated full count ---------- -/

theorem countFrom_foldl_aux (fuel i limit : Nat) (F : Nat → Grid)
    (IH : ∀ d cnt', cnt' ≤ limit →
      countFrom fuel i (F d) limit cnt' = min limit (cnt' + (solsFrom fuel i (F d)).length)) :
    ∀ (ds : List Nat) (cnt : Nat), cnt ≤ limit →
      ds.foldl (fun acc d => countFrom fuel i (F d) limit acc) cnt
        = min limit (cnt + (ds.foldr (fun d acc => solsFrom fuel i (F d) ++ acc) []).length) := by
  intro ds
  induction ds with
  | nil => intro cnt h; simp; omega
  | cons d ds ih =>
    intro cnt h
    simp only [List.foldl_cons, List.foldr_cons, List.length_append]
    rw [IH d cnt h, ih (min limit (cnt + (solsFrom fuel i (F d)).length)) (Nat.min_le_left _ _)]
    omega

theorem countFrom_eq : ∀ (fuel i : Nat) (g : Grid) (limit cnt : Nat), cnt ≤ limit →
    countFrom fuel i g limit cnt = min limit (cnt + (solsFrom fuel i g).length) := by
  intro fuel
  induction fuel with
  | zero =>
    intro i g limit cnt h
    by_cases h1 : limit ≤ cnt <;> by_cases h2 : validatedComplete g = true <;>
      simp [countFrom, solsFrom, h1, h2] <;> omega
  | succ fuel ih =>
    intro i g limit cnt h
    by_cases h1 : limit ≤ cnt
    · have hc : cnt = limit := Nat.le_antisymm h h1
      simp only [countFrom, if_pos h1]
      omega
    · by_cases h2 : cellGet g i = 0
      · simp only [countFrom, solsFrom, if_neg h1, if_pos h2]
        exact countFrom_foldl_aux fuel (i+1) limit (fun d => g.set i d)
          (fun d cnt' h' => ih (i+1) (g.set i d) limit cnt' h') _ cnt h
      · simp only [countFrom, solsFrom, if_neg h1, if_neg h2]
        exact ih (i+1) g limit cnt h

/- ---------- soundness, completeness and dedup of the enumeration ---------- -/

theorem mem_foldr_append {β : Type} (f : β → List Grid) (ds : List β) (s : Grid) :
    s ∈ ds.foldr (fun d acc => f d ++ acc) [] ↔ ∃ d ∈ ds, s ∈ f d := by
  induction ds with
  | nil => simp
  | cons d ds ih => simp [ih]

theorem solsFrom_sound : ∀ (fuel i : Nat) (g : Grid), ∀ s ∈ solsFrom fuel i g,
    s.length = g.length ∧ validatedComplete s = true ∧
    (∀ j, cellGet g j ≠ 0 → cellGet s j = cellGet g j) ∧
    (∀ j, j < i → cellGet s j = cellGet g j) := by
  intro fuel
  induction fuel with
  | zero =>
    intro i g s hs
    simp only [solsFrom] at hs
    by_cases h : validatedComplete g = true
    · rw [if_pos h] at hs
      simp only [List.mem_singleton] at hs
      subst hs
      exact ⟨rfl, h, fun j _ => rfl, fun j _ => rfl⟩
    · rw [if_neg h] at hs
      simp at hs
  | succ fuel ih =>
    intro i g s hs
    simp only [solsFrom] at hs
    by_cases h0 : cellGet g i = 0
    · rw [if_pos h0, mem_foldr_append] at hs
      obtain ⟨d, _, hs⟩ := hs
      obtain ⟨hlen, hval, hext, hbelow⟩ := ih (i+1) (g.set i d) s hs
      refine ⟨by rw [hlen, List.length_set], hval, ?_, ?_⟩
      · intro j hj
        have hji : j ≠ i := fun e => hj (by rw [e, h0])
        have := hext j (by rwa [cellGet_set_ne g i d j hji])
        rwa [cellGet_set_ne g i d j hji] at this
      · intro j hj
        have hji : j ≠ i := Nat.ne_of_lt hj
        have := hbelow j (Nat.lt_succ_of_lt hj)
        rwa [cellGet_set_ne g i d j hji] at this
    · rw [if_neg h0] at hs
      obtain ⟨hlen, hval, hext, hbelow⟩ := ih (i+1) g s hs
      exact ⟨hlen, hval, hext, fun j hj => hbelow j (Nat.lt_succ_of_lt hj)⟩

theorem solsFrom_complete : ∀ (fuel i : Nat) (g s : Grid),
    g.length = 81 → s.length = 81 → i + fuel ≤ 81 →
    validatedComplete s = true →
    (∀ j, cellGet g j ≠ 0 → cellGet s j = cellGet g j) →
    (∀ j, j < i → cellGet s j = cellGet g j) →
    (∀ j, i + fuel ≤ j → cellGet s j = cellGet g j) →
    s ∈ solsFrom fuel i g := by
  intro fuel
  induction fuel with
  | zero =>
    intro i g s hg hs _ hval _ hbelow habove
    have hsg : s = g := by
      apply ext_cellGet (by rw [hs, hg])
      intro j
      rcases Nat.lt_or_ge j i with hj | hj
      · exact hbelow j hj
      · exact habove j (by omega)
    subst hsg
    simp [solsFrom, hval]
  | succ fuel ih =>
    intro i g s hg hs hfi hval hext hbelow habove
    have hi81 : i < 81 := by omega
    have hilen : i < g.length := by omega
    simp only [solsFrom]
    by_cases h0 : cellGet g i = 0
    · rw [if_pos h0, mem_foldr_append]
      have hvc := (validatedComplete_iff s).mp hval
      have hd19 : 1 ≤ cellGet s i ∧ cellGet s i ≤ 9 := (hvc i hi81).1
      refine ⟨cellGet s i, ?_, ?_⟩
      · rw [List.mem_filter]
        refine ⟨mem_digits.mpr hd19, ?_⟩
        rw [noConflictAt_iff]
        intro j hj hji hh heq
        have hgj : cellGet g j ≠ 0 := by rw [heq]; omega
        exact (hvc i hi81).2 j hj hji hh (by rw [hext j hgj, heq])
      · apply ih (i+1) (g.set i (cellGet s i)) s (by rw [List.length_set]; exact hg) hs
          (by omega) hval
        · intro j hj
          by_cases hji : j = i
          · subst hji
            rw [cellGet_set_self g j (cellGet s j) hilen]
          · rw [cellGet_set_ne g i (cellGet s i) j hji] at hj ⊢
            exact hext j hj
        · intro j hj
          by_cases hji : j = i
          · subst hji
            rw [cellGet_set_self g j (cellGet s j) hilen]
          · rw [cellGet_set_ne g i (cellGet s i) j hji]
            exact hbelow j (by omega)
        · intro j hj
          have hji : j ≠ i := by omega
          rw [cellGet_set_ne g i (cellGet s i) j hji]
          exact habove j (by omega)
    · rw [if_neg h0]
      apply ih (i+1) g s hg hs (by omega) hval hext
      · intro j hj
        by_cases hji : j = i
        · subst hji
          exact hext j h0
        · exact hbelow j (by omega)
      · intro j hj
        exact habove j (by omega)

theorem nodup_foldr_append {β : Type} (f : β → List Grid) (ds : List β)
    (hds : ds.Nodup)
    (h1 : ∀ d ∈ ds, (f d).Nodup)
    (h2 : ∀ d1 ∈ ds, ∀ d2 ∈ ds, d1 ≠ d2 → ∀ s, s ∈ f d1 → s ∉ f d2) :
    (ds.foldr (fun d acc => f d ++ acc) []).Nodup := by
  induction ds with
  | nil => simp
  | cons d ds ih =>
    simp only [List.foldr_cons]
    rw [List.nodup_cons] at hds
    apply List.Nodup.append (h1 d (List.mem_cons_self d ds))
      (ih hds.2 (fun x hx => h1 x (List.mem_cons_of_mem d hx))
        (fun a ha b hb hne => h2 a (List.mem_cons_of_mem d ha) b (List.mem_cons_of_mem d hb) hne))
    intro s hsd hsr
    rw [mem_foldr_append] at hsr
    obtain ⟨d2, hd2, hs2⟩ := hsr
    exact h2 d (List.mem_cons_self d ds) d2 (List.mem_cons_of_mem d hd2)
      (fun e => hds.1 (e ▸ hd2)) s hsd hs2

theorem solsFrom_nodup : ∀ (fuel i : Nat) (g : Grid), g.length = 81 → i + fuel ≤ 81 →
    (solsFrom fuel i g).Nodup := by
  intro fuel
  induction fuel with
  | zero =>
    intro i g _ _
    simp only [solsFrom]
    split <;> simp
  | succ fuel ih =>
    intro i g hg hfi
    have hilen : i < g.length := by omega
    simp only [solsFrom]
    by_cases h0 : cellGet g i = 0
    · rw [if_pos h0]
      apply nodup_foldr_append
      · exact List.Nodup.filter _ (by decide)
      · intro d _
        exact ih (i+1) (g.set i d) (by rw [List.length_set]; exact hg) (by omega)
      · intro d1 _ d2 _ hne s hs1 hs2
        have b1 := (solsFrom_sound fuel (i+1) _ s hs1).2.2.2 i (Nat.lt_succ_self i)
        have b2 := (solsFrom_sound fuel (i+1) _ s hs2).2.2.2 i (Nat.lt_succ_self i)
        rw [cellGet_set_self g i d1 hilen] at b1
        rw [cellGet_set_self g i d2 hilen] at b2
        exact hne (b1.symm.trans b2)
    · rw [if_neg h0]
      exact ih (i+1) g hg (by omega)

/- ---------- the solution set and the counting interface ---------- -/

theorem mem_solsFrom {g : Grid} (hg : g.length = 81) (s : Grid) :
    s ∈ solsFrom 81 0 g ↔ isSolutionOf s g := by
  constructor
  · intro hs
    obtain ⟨hlen, hval, hext, _⟩ := solsFrom_sound 81 0 g s hs
    exact ⟨hlen.trans hg, hval, hext⟩
  · rintro ⟨hs, hval, hext⟩
    apply solsFrom_complete 81 0 g s hg hs (by omega) hval hext
      (fun j hj => absurd hj (Nat.not_lt_zero j))
    intro j hj
    have h1 : s.length ≤ j := by omega
    have h2 : g.length ≤ j := by omega
    rw [cellGet_of_le h1, cellGet_of_le h2]

theorem solutionSet_eq_list {g : Grid} (hg : g.length = 81) :
    solutionSet g = ((solsFrom 81 0 g).toFinset : Set Grid) := by
  ext s
  simp [solutionSet, mem_solsFrom hg]

theorem solutionSet_finite {g : Grid} (hg : g.length = 81) : (solutionSet g).Finite := by
  rw [solutionSet_eq_list hg]
  exact ((solsFrom 81 0 g).toFinset).finite_toSet

theorem solutionSet_ncard {g : Grid} (hg : g.length = 81) :
    (solutionSet g).ncard = (solsFrom 81 0 g).length := by
  rw [solutionSet_eq_list hg, Set.ncard_coe_Finset]
  exact List.toFinset_card_of_nodup (solsFrom_nodup 81 0 g hg (by omega))

theorem count_at_most_eq {g : Grid} (hg : g.length = 81) (limit : Nat) :
    Sudoku.count_at_most g limit = min limit (solutionSet g).ncard := by
  rw [Sudoku.count_at_most]
  by_cases hok : fromSudokuOk g = true
  · rw [if_pos hok, countFrom_eq 81 0 g limit 0 (Nat.zero_le _), solutionSet_ncard hg]
    simp
  · rw [if_neg hok]
    have hempty : solutionSet g = ∅ := by
      ext s
      simp only [solutionSet, Set.mem_setOf_eq, Set.mem_empty_iff_false, iff_false]
      rintro ⟨hs, hval, hext⟩
      apply hok
      rw [fromSudokuOk_iff]
      refine ⟨hg, fun i hi => ?_⟩
      have hvc := (validatedComplete_iff s).mp hval
      by_cases hz : cellGet g i = 0
      · exact ⟨by rw [hz]; omega, Or.inl hz⟩
      · have hsi := hext i hz
        refine ⟨by rw [← hsi]; exact (hvc i hi).1.2, Or.inr ?_⟩
        intro j hj hji hh heq
        have hgj : cellGet g j ≠ 0 := by rw [heq]; exact hz
        exact (hvc i hi).2 j hj hji hh (by rw [hext j hgj, hsi, heq])
    rw [hempty]
    simp

/- ---------- uniqueness characterization and monotonicity ---------- -/

theorem is_uniquely_solvable_iff {g : Grid} (hg : g.length = 81) :
    Sudoku.is_uniquely_solvable g = true ↔ (solutionSet g).ncard = 1 := by
  rw [Sudoku.is_uniquely_solvable, beq_iff_eq, count_at_most_eq hg 2]
  omega

theorem solutionSet_mono {h g : Grid} (hle : leBlank h g) : solutionSet g ⊆ solutionSet h := by
  rintro s ⟨hs, hval, hext⟩
  refine ⟨hs, hval, fun j hj => ?_⟩
  rcases hle j with he | he
  · rw [he]
    exact hext j (by rw [← he]; exact hj)
  · exact absurd he hj

theorem ncard_le_of_leBlank {h g : Grid} (hh : h.length = 81) (hle : leBlank h g) :
    (solutionSet g).ncard ≤ (solutionSet h).ncard :=
  Set.ncard_le_ncard (solutionSet_mono hle) (solutionSet_finite hh)

theorem leBlank_refl (g : Grid) : leBlank g g := fun _ => Or.inl rfl

theorem leBlank_trans {a b c : Grid} (h1 : leBlank a b) (h2 : leBlank b c) : leBlank a c := by
  intro i
  rcases h1 i with e | e
  · rcases h2 i with f | f
    · exact Or.inl (e.trans f)
    · exact Or.inr (e.trans f)
  · exact Or.inr e

theorem leBlank_set_zero (g : Grid) (c : Nat) : leBlank (g.set c 0) g := by
  intro i
  by_cases hic : i = c
  · subst hic
    exact Or.inr (cellGet_set_zero g i)
  · exact Or.inl (cellGet_set_ne g c 0 i hic)

theorem solutionSet_congr {g g' : Grid} (h : ∀ j, cellGet g j = cellGet g' j) :
    solutionSet g = solutionSet g' := by
  ext s
  simp only [solutionSet, Set.mem_setOf_eq, isSolutionOf]
  constructor
  · rintro ⟨hs, hval, hext⟩
    refine ⟨hs, hval, fun j hj => ?_⟩
    rw [← h j]
    exact hext j (by rw [h j]; exact hj)
  · rintro ⟨hs, hval, hext⟩
    refine ⟨hs, hval, fun j hj => ?_⟩
    rw [h j]
    exact hext j (by rw [← h j]; exact hj)

theorem two_le_ncard_of_reject {g t : Grid} (hg : g.length = 81) (ht : t.length = 81)
    (huniq : Sudoku.is_uniquely_solvable g = true) (hle : leBlank t g)
    (hrej : Sudoku.is_uniquely_solvable t ≠ true) :
    2 ≤ (solutionSet t).ncard := by
  have h1 := (is_uniquely_solvable_iff hg).mp huniq
  have h2 := ncard_le_of_leBlank ht hle
  have h3 : (solutionSet t).ncard ≠ 1 := fun he =>
    hrej ((is_uniquely_solvable_iff ht).mpr he)
  omega

theorem cellGet_set_value (g : Grid) (c : Nat) (h : Grid) (hlen : g.length = h.length) :
    cellGet (g.set c (cellGet h c)) c = cellGet h c := by
  by_cases hc : c < g.length
  · exact cellGet_set_self g c _ hc
  · rw [List.set_eq_of_length_le (Nat.le_of_not_lt hc), cellGet_of_le (Nat.le_of_not_lt hc),
      cellGet_of_le (hlen ▸ Nat.le_of_not_lt hc)]

/- ---------- remover invariants ---------- -/

theorem removedOK_mono {s s' : Grid} (hs' : s'.length = 81) (hle : leBlank s' s)
    {c : Nat} (hok : removedOK s c) : removedOK s' c := by
  rcases hok with hz | hcard
  · left
    rcases hle c with he | he
    · rw [he, hz]
    · exact he
  · by_cases hz' : cellGet s' c = 0
    · exact Or.inl hz'
    · right
      refine le_trans hcard (ncard_le_of_leBlank (by rw [List.length_set]; exact hs') ?_)
      intro i
      by_cases hic : i = c
      · subst hic
        left
        rw [cellGet_set_zero, cellGet_set_zero]
      · rw [cellGet_set_ne _ _ _ _ hic, cellGet_set_ne _ _ _ _ hic]
        exact hle i

theorem removerInv_weaken {s : Grid} {P Q : Nat → Prop} (h : removerInv s P)
    (himp : ∀ x, Q x → P x) : removerInv s Q :=
  ⟨h.1, h.2.1, fun c hc => h.2.2 c (himp c hc)⟩

theorem tryRemove_inv {s : Grid} {P : Nat → Prop} (hinv : removerInv s P) (c : Nat) :
    removerInv (tryRemove s c) (fun x => x = c ∨ P x) := by
  obtain ⟨hu, hlen, hP⟩ := hinv
  have hlen' : (s.set c 0).length = 81 := by rw [List.length_set]; exact hlen
  simp only [tryRemove]
  by_cases hc : Sudoku.is_uniquely_solvable (s.set c 0) = true
  · rw [if_pos hc]
    refine ⟨hc, hlen', fun x hx => ?_⟩
    rcases hx with rfl | hx
    · exact Or.inl (cellGet_set_zero s x)
    · exact removedOK_mono hlen' (leBlank_set_zero s c) (hP x hx)
  · rw [if_neg hc]
    refine ⟨hu, hlen, fun x hx => ?_⟩
    rcases hx with rfl | hx
    · exact Or.inr (two_le_ncard_of_reject hlen hlen' hu (leBlank_set_zero s x) hc)
    · exact hP x hx

theorem foldl_tryRemove_inv :
    ∀ (cells : List Nat) {P : Nat → Prop} (s : Grid), removerInv s P →
      removerInv (cells.foldl tryRemove s) (fun x => x ∈ cells ∨ P x) := by
  intro cells
  induction cells with
  | nil =>
    intro P s h
    exact removerInv_weaken h (fun x hx => by
      rcases hx with hx | hx
      · exact absurd hx (List.not_mem_nil x)
      · exact hx)
  | cons c cs ih =>
    intro P s h
    have h2 := ih (tryRemove s c) (tryRemove_inv h c)
    refine removerInv_weaken h2 (fun x hx => ?_)
    rcases hx with hx | hx
    · rcases List.mem_cons.mp hx with rfl | hx
      · exact Or.inr (Or.inl rfl)
      · exact Or.inl hx
    · exact Or.inr (Or.inr hx)

theorem length_removeAll : ∀ (cells : List Nat) (g : Grid),
    (removeAll cells g).length = g.length := by
  intro cells
  induction cells with
  | nil => intro g; rfl
  | cons c cs ih =>
    intro g
    have : removeAll (c :: cs) g = removeAll cs (g.set c 0) := rfl
    rw [this, ih, List.length_set]

theorem leBlank_removeAll : ∀ (cells : List Nat) (g : Grid), leBlank (removeAll cells g) g := by
  intro cells
  induction cells with
  | nil => intro g; exact leBlank_refl g
  | cons c cs ih =>
    intro g
    exact leBlank_trans (ih (g.set c 0)) (leBlank_set_zero g c)

theorem cellGet_removeAll_of_mem : ∀ (cells : List Nat) (g : Grid) {c : Nat}, c ∈ cells →
    cellGet (removeAll cells g) c = 0 := by
  intro cells
  induction cells with
  | nil => intro g c hc; cases hc
  | cons c' cs ih =>
    intro g c hc
    have he : removeAll (c' :: cs) g = removeAll cs (g.set c' 0) := rfl
    rcases List.mem_cons.mp hc with rfl | hmem
    · rw [he]
      rcases leBlank_removeAll cs (g.set c 0) c with hv | hv
      · rw [hv, cellGet_set_zero]
      · exact hv
    · rw [he]
      exact ih (g.set c' 0) hmem

theorem phase1_inv {g : Grid} {P : Nat → Prop} (order : List Nat) (hinv : removerInv g P) :
    removerInv (phase1 order g) (fun x => x ∈ order.take 20 ∨ P x) := by
  obtain ⟨hu, hlen, hP⟩ := hinv
  have hlen' : (removeAll (order.take 20) g).length = 81 := by
    rw [length_removeAll]; exact hlen
  simp only [phase1]
  by_cases hb : Sudoku.is_uniquely_solvable (removeAll (order.take 20) g) = true
  · rw [if_pos hb]
    refine ⟨hb, hlen', fun x hx => ?_⟩
    rcases hx with hx | hx
    · exact Or.inl (cellGet_removeAll_of_mem _ g hx)
    · exact removedOK_mono hlen' (leBlank_removeAll _ g) (hP x hx)
  · rw [if_neg hb]
    exact foldl_tryRemove_inv (order.take 20) g ⟨hu, hlen, hP⟩

theorem pairStep_inv {s : Grid} {P : Nat → Prop} {c1 c2 : Nat} (hne : c1 ≠ c2)
    (hinv : removerInv s P) :
    removerInv (pairStep s c1 c2) (fun x => x = c1 ∨ x = c2 ∨ P x) := by
  obtain ⟨hu, hlen, hP⟩ := hinv
  have hne' : c2 ≠ c1 := Ne.symm hne
  have hlen1 : ((s.set c1 0).set c2 0).length = 81 := by simp [List.length_set, hlen]
  have hlenq : ((s.set c1 0).set c2 0).length = s.length := by simp [List.length_set]
  have hlt : leBlank ((s.set c1 0).set c2 0) s :=
    leBlank_trans (leBlank_set_zero (s.set c1 0) c2) (leBlank_set_zero s c1)
  have he2 : ∀ j, cellGet (((s.set c1 0).set c2 0).set c2 (cellGet s c2)) j
      = cellGet (s.set c1 0) j := by
    intro j
    by_cases hj : j = c2
    · subst hj
      rw [cellGet_set_value _ j s hlenq, cellGet_set_ne s c1 0 j hne']
    · rw [cellGet_set_ne _ c2 _ j hj, cellGet_set_ne _ c2 0 j hj]
  have hlen2 : (((s.set c1 0).set c2 0).set c2 (cellGet s c2)).length = 81 := by
    simp [List.length_set, hlen]
  have hlt2 : leBlank (((s.set c1 0).set c2 0).set c2 (cellGet s c2)) s := by
    intro j
    rw [he2 j]
    exact leBlank_set_zero s c1 j
  have he7 : (((s.set c1 0).set c2 0).set c2 (cellGet s c2)).set c2 0
      = (s.set c1 0).set c2 0 := by
    rw [List.set_set, List.set_set]
  have hlenq2 : (((s.set c1 0).set c2 0).set c2 (cellGet s c2)).length = s.length := by
    simp [List.length_set]
  have he3 : ∀ j,
      cellGet (((((s.set c1 0).set c2 0).set c2 (cellGet s c2)).set c1 (cellGet s c1)).set c2 0) j
      = cellGet (s.set c2 0) j := by
    intro j
    by_cases hj2 : j = c2
    · subst hj2
      rw [cellGet_set_zero, cellGet_set_zero]
    · rw [cellGet_set_ne _ c2 0 j hj2, cellGet_set_ne s c2 0 j hj2]
      by_cases hj1 : j = c1
      · subst hj1
        rw [cellGet_set_value _ j s hlenq2]
      · rw [cellGet_set_ne _ c1 _ j hj1, he2 j, cellGet_set_ne s c1 0 j hj1]
  have hlen3 :
      (((((s.set c1 0).set c2 0).set c2 (cellGet s c2)).set c1 (cellGet s c1)).set c2 0).length
        = 81 := by
    simp [List.length_set, hlen]
  have hlt3 :
      leBlank (((((s.set c1 0).set c2 0).set c2 (cellGet s c2)).set c1 (cellGet s c1)).set c2 0)
        s := by
    intro j
    rw [he3 j]
    exact leBlank_set_zero s c2 j
  have he9 : ∀ j,
      cellGet
        (((((( s.set c1 0).set c2 0).set c2 (cellGet s c2)).set c1 (cellGet s c1)).set c2 0).set c1 0) j
      = cellGet ((s.set c1 0).set c2 0) j := by
    intro j
    by_cases hj1 : j = c1
    · subst hj1
      rw [cellGet_set_zero, cellGet_set_ne _ c2 0 j hne, cellGet_set_zero]
    · rw [cellGet_set_ne _ c1 0 j hj1, he3 j]
      by_cases hj2 : j = c2
      · subst hj2
        rw [cellGet_set_zero, cellGet_set_zero]
      · rw [cellGet_set_ne s c2 0 j hj2, cellGet_set_ne _ c2 0 j hj2,
          cellGet_set_ne s c1 0 j hj1]
  simp only [pairStep]
  by_cases hb1 : Sudoku.is_uniquely_solvable ((s.set c1 0).set c2 0) = true
  · rw [if_pos hb1]
    refine ⟨hb1, hlen1, fun x hx => ?_⟩
    rcases hx with rfl | rfl | hx
    · exact Or.inl (by rw [cellGet_set_ne _ c2 0 _ hne, cellGet_set_zero])
    · exact Or.inl (cellGet_set_zero _ _)
    · exact removedOK_mono hlen1 hlt (hP x hx)
  · rw [if_neg hb1]
    have h2t : 2 ≤ (solutionSet ((s.set c1 0).set c2 0)).ncard :=
      two_le_ncard_of_reject hlen hlen1 hu hlt hb1
    by_cases hb2 :
        Sudoku.is_uniquely_solvable (((s.set c1 0).set c2 0).set c2 (cellGet s c2)) = true
    · rw [if_pos hb2]
      refine ⟨hb2, hlen2, fun x hx => ?_⟩
      rcases hx with rfl | rfl | hx
      · exact Or.inl (by
          rw [cellGet_set_ne _ c2 _ _ hne, cellGet_set_ne _ c2 0 _ hne, cellGet_set_zero])
      · right
        rw [he7]
        exact h2t
      · exact removedOK_mono hlen2 hlt2 (hP x hx)
    · rw [if_neg hb2]
      have h2t2 :
          2 ≤ (solutionSet (((s.set c1 0).set c2 0).set c2 (cellGet s c2))).ncard :=
        two_le_ncard_of_reject hlen hlen2 hu hlt2 hb2
      by_cases hb3 : Sudoku.is_uniquely_solvable
          (((((s.set c1 0).set c2 0).set c2 (cellGet s c2)).set c1 (cellGet s c1)).set c2 0)
          = true
      · rw [if_pos hb3]
        refine ⟨hb3, hlen3, fun x hx => ?_⟩
        rcases hx with rfl | rfl | hx
        · right
          rw [solutionSet_congr he9]
          exact h2t
        · exact Or.inl (cellGet_set_zero _ _)
        · exact removedOK_mono hlen3 hlt3 (hP x hx)
      · rw [if_neg hb3]
        refine ⟨hu, hlen, fun x hx => ?_⟩
        rcases hx with rfl | rfl | hx
        · right
          rw [solutionSet_congr (fun j => (he2 j).symm)]
          exact h2t2
        · right
          rw [solutionSet_congr (fun j => (he3 j).symm)]
          exact two_le_ncard_of_reject hlen hlen3 hu hlt3 hb3
        · exact hP x hx

theorem phase2_inv :
    ∀ (ps : List (Nat × Nat)) {P : Nat → Prop} (s : Grid),
      (∀ p ∈ ps, p.1 ≠ p.2) → removerInv s P →
      removerInv (phase2 ps s) (fun x => (∃ p ∈ ps, x = p.1 ∨ x = p.2) ∨ P x) := by
  intro ps
  induction ps with
  | nil =>
    intro P s _ h
    refine removerInv_weaken h (fun x hx => ?_)
    rcases hx with ⟨p, hp, _⟩ | hx
    · exact absurd hp (List.not_mem_nil p)
    · exact hx
  | cons p ps ih =>
    intro P s hne h
    have h1 := pairStep_inv (hne p (List.mem_cons_self p ps)) h
    have h2 := ih (pairStep s p.1 p.2) (fun q hq => hne q (List.mem_cons_of_mem p hq)) h1
    refine removerInv_weaken h2 (fun x hx => ?_)
    rcases hx with ⟨q, hq, hxq⟩ | hx
    · rcases List.mem_cons.mp hq with rfl | hq
      · rcases hxq with hxq | hxq
        · exact Or.inr (Or.inl hxq)
        · exact Or.inr (Or.inr (Or.inl hxq))
      · exact Or.inl ⟨q, hq, hxq⟩
    · exact Or.inr (Or.inr (Or.inr hx))

theorem phase3_inv {P : Nat → Prop} (cells : List Nat) (s : Grid) (h : removerInv s P) :
    removerInv (phase3 cells s) (fun x => x ∈ cells ∨ P x) :=
  foldl_tryRemove_inv cells s h

theorem generate_unique_from_inv {g : Grid} (order : List Nat)
    (hpairs : ∀ p ∈ toPairs ((order.drop 20).take 30), p.1 ≠ p.2)
    (hu : Sudoku.is_uniquely_solvable g = true) (hlen : g.length = 81) :
    removerInv (Sudoku.generate_unique_from order g)
      (fun x => x ∈ order.drop 50 ∨
        ((∃ p ∈ toPairs ((order.drop 20).take 30), x = p.1 ∨ x = p.2) ∨
          (x ∈ order.take 20 ∨ False))) := by
  have h0 : removerInv g (fun _ => False) := ⟨hu, hlen, fun c hc => hc.elim⟩
  have h1 := phase1_inv order h0
  have h2 := phase2_inv (toPairs ((order.drop 20).take 30)) (phase1 order g) hpairs h1
  exact phase3_inv (order.drop 50) _ h2

theorem toPairs_cover : ∀ (l : List Nat), l.length % 2 = 0 → ∀ c ∈ l,
    ∃ p ∈ toPairs l, c = p.1 ∨ c = p.2
  | [] => by
    intro _ c hc
    cases hc
  | [x] => by
    intro h
    simp at h
  | c1 :: c2 :: rest => by
    intro h c hc
    rcases List.mem_cons.mp hc with rfl | hc'
    · exact ⟨(c, c2), List.mem_cons_self _ _, Or.inl rfl⟩
    · rcases List.mem_cons.mp hc' with rfl | hc''
      · exact ⟨(c1, c), List.mem_cons_self _ _, Or.inr rfl⟩
      · obtain ⟨p, hp, he⟩ := toPairs_cover rest
          (by simp only [List.length_cons] at h ⊢; omega) c hc''
        exact ⟨p, List.mem_cons_of_mem _ hp, he⟩

theorem toPairs_ne : ∀ (l : List Nat), l.Nodup → ∀ p ∈ toPairs l, p.1 ≠ p.2
  | [] => by
    intro _ p hp
    cases hp
  | [_] => by
    intro _ p hp
    cases hp
  | c1 :: c2 :: rest => by
    intro h p hp
    rw [List.nodup_cons] at h
    rcases List.mem_cons.mp hp with rfl | hp'
    · intro he
      apply h.1
      have hcc : c1 = c2 := he
      rw [hcc]
      exact List.mem_cons_self c2 rest
    · exact toPairs_ne rest (List.nodup_cons.mp h.2).2 p hp'

theorem order_cover {order : List Nat} {c : Nat} (hc : c ∈ order) :
    c ∈ order.take 20 ∨ c ∈ (order.drop 20).take 30 ∨ c ∈ order.drop 50 := by
  have e1 : order.take 20 ++ order.drop 20 = order := List.take_append_drop 20 order
  have e2 : (order.drop 20).take 30 ++ (order.drop 20).drop 30 = order.drop 20 :=
    List.take_append_drop 30 (order.drop 20)
  have e3 : (order.drop 20).drop 30 = order.drop 50 := by
    rw [List.drop_drop]
  rw [← e1, List.mem_append] at hc
  rcases hc with hc | hc
  · exact Or.inl hc
  · rw [← e2, List.mem_append, e3] at hc
    rcases hc with hc | hc
    · exact Or.inr (Or.inl hc)
    · exact Or.inr (Or.inr hc)

/- ---------- unique solvability is preserved by every remover phase ---------- -/

theorem tryRemove_uniq {s : Grid} (hu : Sudoku.is_uniquely_solvable s = true) (c : Nat) :
    Sudoku.is_uniquely_solvable (tryRemove s c) = true := by
  simp only [tryRemove]
  split
  · assumption
  · exact hu

theorem foldl_tryRemove_uniq : ∀ (cells : List Nat) (s : Grid),
    Sudoku.is_uniquely_solvable s = true →
    Sudoku.is_uniquely_solvable (cells.foldl tryRemove s) = true := by
  intro cells
  induction cells with
  | nil => intro s hu; exact hu
  | cons c cs ih => intro s hu; exact ih (tryRemove s c) (tryRemove_uniq hu c)

theorem phase1_uniq (order : List Nat) {g : Grid}
    (hu : Sudoku.is_uniquely_solvable g = true) :
    Sudoku.is_uniquely_solvable (phase1 order g) = true := by
  simp only [phase1]
  split
  · assumption
  · exact foldl_tryRemove_uniq _ g hu

theorem pairStep_uniq {s : Grid} (hu : Sudoku.is_uniquely_solvable s = true) (c1 c2 : Nat) :
    Sudoku.is_uniquely_solvable (pairStep s c1 c2) = true := by
  simp only [pairStep]
  split
  · assumption
  · split
    · assumption
    · split
      · assumption
      · exact hu

theorem phase2_uniq : ∀ (ps : List (Nat × Nat)) (s : Grid),
    Sudoku.is_uniquely_solvable s = true →
    Sudoku.is_uniquely_solvable (phase2 ps s) = true := by
  intro ps
  induction ps with
  | nil => intro s hu; exact hu
  | cons p ps ih => intro s hu; exact ih (pairStep s p.1 p.2) (pairStep_uniq hu p.1 p.2)

theorem generate_unique_from_uniq (order : List Nat) {g : Grid}
    (hu : Sudoku.is_uniquely_solvable g = true) :
    Sudoku.is_uniquely_solvable (Sudoku.generate_unique_from order g) = true :=
  foldl_tryRemove_uniq (order.drop 50) _
    (phase2_uniq (toPairs ((order.drop 20).take 30)) _ (phase1_uniq order hu))

/- ---------- the remover only blanks cells ---------- -/

theorem tryRemove_leBlank (s : Grid) (c : Nat) : leBlank (tryRemove s c) s := by
  simp only [tryRemove]
  split
  · exact leBlank_set_zero s c
  · exact leBlank_refl s

theorem foldl_tryRemove_leBlank : ∀ (cells : List Nat) (s : Grid),
    leBlank (cells.foldl tryRemove s) s := by
  intro cells
  induction cells with
  | nil => intro s; exact leBlank_refl s
  | cons c cs ih =>
    intro s
    exact leBlank_trans (ih (tryRemove s c)) (tryRemove_leBlank s c)

theorem phase1_leBlank (order : List Nat) (g : Grid) : leBlank (phase1 order g) g := by
  simp only [phase1]
  split
  · exact leBlank_removeAll _ g
  · exact foldl_tryRemove_leBlank _ g

theorem pairStep_leBlank (s : Grid) (c1 c2 : Nat) : leBlank (pairStep s c1 c2) s := by
  have hbase : leBlank ((s.set c1 0).set c2 0) s :=
    leBlank_trans (leBlank_set_zero (s.set c1 0) c2) (leBlank_set_zero s c1)
  simp only [pairStep]
  split
  · exact hbase
  · split
    · intro j
      by_cases hj : j = c2
      · subst hj
        exact Or.inl (cellGet_set_value _ j s (by simp [List.length_set]))
      · rw [cellGet_set_ne _ c2 _ j hj]
        exact hbase j
    · split
      · intro j
        by_cases hj2 : j = c2
        · subst hj2
          exact Or.inr (cellGet_set_zero _ j)
        · rw [cellGet_set_ne _ c2 0 j hj2]
          by_cases hj1 : j = c1
          · subst hj1
            exact Or.inl (cellGet_set_value _ j s (by simp [List.length_set]))
          · rw [cellGet_set_ne _ c1 _ j hj1, cellGet_set_ne _ c2 _ j hj2]
            exact hbase j
      · exact leBlank_refl s

theorem phase2_leBlank : ∀ (ps : List (Nat × Nat)) (s : Grid), leBlank (phase2 ps s) s := by
  intro ps
  induction ps with
  | nil => intro s; exact leBlank_refl s
  | cons p ps ih =>
    intro s
    exact leBlank_trans (ih (pairStep s p.1 p.2)) (pairStep_leBlank s p.1 p.2)

theorem generate_unique_from_leBlank (order : List Nat) (g : Grid) :
    leBlank (Sudoku.generate_unique_from order g) g :=
  leBlank_trans
    (leBlank_trans (foldl_tryRemove_leBlank (order.drop 50) _)
      (phase2_leBlank (toPairs ((order.drop 20).take 30)) _))
    (phase1_leBlank order g)

/- ---------- a solved grid is uniquely solvable ---------- -/

theorem solutionSet_of_solved {g : Grid} (hlen : g.length = 81)
    (hval : validatedComplete g = true) : solutionSet g = {g} := by
  ext s
  simp only [solutionSet, Set.mem_setOf_eq, Set.mem_singleton_iff, isSolutionOf]
  constructor
  · rintro ⟨hs, _, hext⟩
    apply ext_cellGet (by rw [hs, hlen])
    intro j
    by_cases hj : j < 81
    · apply hext j
      have := ((validatedComplete_iff g).mp hval j hj).1.1
      omega
    · rw [cellGet_of_le (by omega : s.length ≤ j), cellGet_of_le (by omega : g.length ≤ j)]
  · rintro rfl
    exact ⟨hlen, hval, fun j _ => rfl⟩

theorem uniq_of_solved {g : Grid} (h : Sudoku.is_solved g = true) :
    Sudoku.is_uniquely_solvable g = true := by
  rw [Sudoku.is_solved, Bool.and_eq_true, beq_iff_eq] at h
  obtain ⟨hlen, hval⟩ := h
  rw [is_uniquely_solvable_iff hlen, solutionSet_of_solved hlen hval, Set.ncard_singleton]

/- ---------- claim theorems ---------- -/

/-- C1: for every 81-cell input grid and every limit, `count_at_most limit`
returns `min limit n`, where `n` is the true number of solutions of the grid
(the cardinality of its solution set); in particular any limit at least `n`
returns exactly the true solution count. -/
theorem spec_c1_count_at_most_min (g : Grid) (limit : Nat) (h : g.length = 81) :
    Sudoku.count_at_most g limit = min limit (solutionSet g).ncard :=
  count_at_most_eq h limit

theorem spec_c1_witness :
    emptyGrid.length = 81 ∧
      Sudoku.count_at_most emptyGrid 7 = min 7 (solutionSet emptyGrid).ncard :=
  ⟨by decide, spec_c1_count_at_most_min emptyGrid 7 (by decide)⟩

/-- C2: for every solved filled grid (the specification's guarantee on the
output of the missing `generate_filled`) and every random cell order, the
puzzle returned by `generate_unique` is uniquely solvable:
`count_at_most 2` on it equals 1. -/
theorem spec_c2_generate_unique_uniquely_solvable (filled : Grid) (order : List Nat)
    (h : Sudoku.is_solved filled = true) :
    Sudoku.count_at_most (Sudoku.generate_unique filled order) 2 = 1 := by
  have hu := generate_unique_from_uniq order (uniq_of_solved h)
  rw [Sudoku.is_uniquely_solvable, beq_iff_eq] at hu
  exact hu

theorem spec_c2_witness :
    Sudoku.is_solved solvedGrid = true ∧
      Sudoku.count_at_most (Sudoku.generate_unique solvedGrid (List.range 81)) 2 = 1 :=
  ⟨by decide, spec_c2_generate_unique_uniquely_solvable solvedGrid (List.range 81) (by decide)⟩

/-- C3: for every uniquely solvable 81-cell grid and every random cell order
(a permutation of the 81 cells), the puzzle returned by the remover is
locally minimal: every cell of the result is already blank, or blanking it
yields a grid whose `count_at_most 2` differs from 1. -/
theorem spec_c3_remover_locally_minimal (g : Grid) (order : List Nat) (c : Nat)
    (hlen : g.length = 81) (horder : order.Perm (List.range 81))
    (huniq : Sudoku.is_uniquely_solvable g = true) (hc : c < 81) :
    cellGet (Sudoku.generate_unique_from order g) c = 0 ∨
      Sudoku.count_at_most ((Sudoku.generate_unique_from order g).set c 0) 2 ≠ 1 := by
  have hod : order.Nodup := horder.nodup_iff.mpr (List.nodup_range 81)
  have holen : order.length = 81 := by rw [horder.length_eq, List.length_range]
  have hsub : ((order.drop 20).take 30).Nodup :=
    ((List.take_sublist 30 (order.drop 20)).trans (List.drop_sublist 20 order)).nodup hod
  have hfin := generate_unique_from_inv order (toPairs_ne _ hsub) huniq hlen
  have hmem : c ∈ order := horder.mem_iff.mpr (List.mem_range.mpr hc)
  have hcov : c ∈ order.drop 50 ∨
      ((∃ p ∈ toPairs ((order.drop 20).take 30), c = p.1 ∨ c = p.2) ∨
        (c ∈ order.take 20 ∨ False)) := by
    rcases order_cover hmem with h1 | h2 | h3
    · exact Or.inr (Or.inr (Or.inl h1))
    · have hlen30 : ((order.drop 20).take 30).length % 2 = 0 := by
        rw [List.length_take, List.length_drop, holen]
        decide
      obtain ⟨p, hp, he⟩ := toPairs_cover _ hlen30 c h2
      exact Or.inr (Or.inl ⟨p, hp, he⟩)
    · exact Or.inl h3
  rcases hfin.2.2 c hcov with hz | hcard
  · exact Or.inl hz
  · right
    have hplen : ((Sudoku.generate_unique_from order g).set c 0).length = 81 := by
      rw [List.length_set]
      exact hfin.2.1
    rw [count_at_most_eq hplen 2]
    omega

theorem spec_c3_witness :
    solvedGrid.length = 81 ∧ (List.range 81).Perm (List.range 81) ∧
      Sudoku.is_uniquely_solvable solvedGrid = true ∧ 0 < 81 ∧
      (cellGet (Sudoku.generate_unique_from (List.range 81) solvedGrid) 0 = 0 ∨
        Sudoku.count_at_most
          ((Sudoku.generate_unique_from (List.range 81) solvedGrid).set 0 0) 2 ≠ 1) :=
  ⟨by decide, List.Perm.refl _, by decide, by decide,
    spec_c3_remover_locally_minimal solvedGrid (List.range 81) 0 (by decide)
      (List.Perm.refl _) (by decide) (by decide)⟩

/-- C5: for every input grid and every cell order, the grid returned by
`generate_unique_from` only blanks cells: each output cell equals the input
cell or is 0; no cell ever changes to a different nonzero digit. -/
theorem spec_c5_remover_only_blanks (order : List Nat) (g : Grid) (i : Nat) :
    cellGet (Sudoku.generate_unique_from order g) i = cellGet g i ∨
      cellGet (Sudoku.generate_unique_from order g) i = 0 :=
  generate_unique_from_leBlank order g i

/-- C8: on a grid with two conflicting clues the solver construction fails
and the failure is converted to a zero-solutions result, not an error:
`count_at_most` returns 0 for every limit and `solve_at_most` returns the
empty list. -/
theorem spec_c8_conflict_zero_solutions (g : Grid) (i j limit : Nat)
    (hi : i < 81) (hj : j < 81) (hij : i ≠ j) (hh : sameHouse i j = true)
    (hv : cellGet g i = cellGet g j) (hnz : cellGet g i ≠ 0) :
    Sudoku.count_at_most g limit = 0 ∧ Sudoku.solve_at_most g limit = [] := by
  have hok : ¬ fromSudokuOk g = true := by
    rw [fromSudokuOk_iff]
    rintro ⟨_, hall⟩
    rcases (hall i hi).2 with hz | hnc
    · exact hnz hz
    · exact hnc j hj (Ne.symm hij) hh hv.symm
  constructor
  · rw [Sudoku.count_at_most, if_neg hok]
  · rw [Sudoku.solve_at_most, if_neg hok]

theorem spec_c8_witness :
    Sudoku.count_at_most conflictGrid 4 = 0 ∧ Sudoku.solve_at_most conflictGrid 4 = [] :=
  spec_c8_conflict_zero_solutions conflictGrid 0 1 4 (by decide) (by decide) (by decide)
    (by decide) (by decide) (by decide)

/-- C9 counterexample: the byte constructor `from_bytes` accepts a grid with
two conflicting 5s in row 0, so it does not reject clue conflicts, contrary
to the claim. -/
theorem spec_c9_counterexample :
    Sudoku.from_bytes conflictGrid = some conflictGrid ∧
      cellGet conflictGrid 0 = cellGet conflictGrid 1 ∧
      cellGet conflictGrid 0 ≠ 0 ∧ sameHouse 0 1 = true := by
  decide

/-- C9 amended: `from_bytes` fails exactly when some cell holds a value
outside 0..9; conflicting clues are not rejected by the byte constructor
(conflicts surface later, as solver-construction failure). -/
theorem spec_c9_from_bytes_exact (bytes : Grid) :
    Sudoku.from_bytes bytes = some bytes ↔ ∀ b ∈ bytes, b ≤ 9 := by
  rw [Sudoku.from_bytes]
  by_cases h : ∀ b ∈ bytes, b ≤ 9
  · rw [if_pos (by simpa [List.all_eq_true] using h)]
    exact iff_of_true rfl h
  · rw [if_neg (by simpa [List.all_eq_true] using h)]
    exact iff_of_false (by simp) h

/- ---------- C10 support: the digit bitmask counts distinct clue digits ---------- -/

theorem testBit_fold_or : ∀ (l : List Nat) (m k : Nat),
    (l.foldl (fun m n => if n = 0 then m else m ||| (1 <<< n)) m).testBit k = true
      ↔ m.testBit k = true ∨ (k ∈ l ∧ k ≠ 0) := by
  intro l
  induction l with
  | nil => intro m k; simp
  | cons n l ih =>
    intro m k
    simp only [List.foldl_cons]
    rw [ih]
    by_cases hn : n = 0
    · subst hn
      rw [if_pos rfl]
      constructor
      · rintro (h | ⟨hk, hkz⟩)
        · exact Or.inl h
        · exact Or.inr ⟨List.mem_cons_of_mem 0 hk, hkz⟩
      · rintro (h | ⟨hk, hkz⟩)
        · exact Or.inl h
        · rcases List.mem_cons.mp hk with rfl | hk
          · exact absurd rfl hkz
          · exact Or.inr ⟨hk, hkz⟩
    · rw [if_neg hn, Nat.one_shiftLeft]
      constructor
      · rintro (h | ⟨hk, hkz⟩)
        · rw [Nat.testBit_lor] at h
          rcases Bool.or_eq_true_iff.mp h with h | h
          · exact Or.inl h
          · rw [Nat.testBit_two_pow, decide_eq_true_eq] at h
            subst h
            exact Or.inr ⟨List.mem_cons_self n l, hn⟩
        · exact Or.inr ⟨List.mem_cons_of_mem n hk, hkz⟩
      · rintro (h | ⟨hk, hkz⟩)
        · left
          rw [Nat.testBit_lor, h, Bool.true_or]
        · rcases List.mem_cons.mp hk with rfl | hk
          · left
            rw [Nat.testBit_lor, Nat.testBit_two_pow_self, Bool.or_true]
          · exact Or.inr ⟨hk, hkz⟩

theorem countOnes16_le_dedup (g : Grid) :
    countOnes16 (g.foldl (fun m n => if n = 0 then m else m ||| (1 <<< n)) 0)
      ≤ (g.filter (fun n => n ≠ 0)).dedup.length := by
  rw [countOnes16]
  have hsubset : ∀ k ∈ (List.range 16).filter
      (fun k => (g.foldl (fun m n => if n = 0 then m else m ||| (1 <<< n)) 0).testBit k),
      k ∈ g.filter (fun n => n ≠ 0) := by
    intro k hk
    rw [List.mem_filter] at hk
    rcases (testBit_fold_or g 0 k).mp hk.2 with h | ⟨hk', hkz⟩
    · rw [Nat.zero_testBit] at h
      cases h
    · rw [List.mem_filter]
      exact ⟨hk', by simpa using hkz⟩
  have hnd : ((List.range 16).filter
      (fun k => (g.foldl (fun m n => if n = 0 then m else m ||| (1 <<< n)) 0).testBit k)).Nodup :=
    List.Nodup.filter _ (List.nodup_range 16)
  calc ((List.range 16).filter
        (fun k => (g.foldl (fun m n => if n = 0 then m else m ||| (1 <<< n)) 0).testBit k)).length
      = ((List.range 16).filter
        (fun k => (g.foldl (fun m n => if n = 0 then m else m ||| (1 <<< n)) 0).testBit k)).toFinset.card :=
        (List.toFinset_card_of_nodup hnd).symm
    _ ≤ (g.filter (fun n => n ≠ 0)).toFinset.card := by
        apply Finset.card_le_card
        intro x hx
        rw [List.mem_toFinset] at hx ⊢
        exact hsubset x hx
    _ = (g.filter (fun n => n ≠ 0)).dedup.length := List.card_toFinset _

/-- C10: for every grid with fewer than 17 nonzero cells, or whose nonzero
cells use fewer than 8 distinct digits, `solve_unique` returns `none` without
searching; in particular the empty grid gives `none`. -/
theorem spec_c10_solve_unique_early_none (g : Grid)
    (h : (g.filter (fun n => n ≠ 0)).length < 17 ∨
      (g.filter (fun n => n ≠ 0)).dedup.length < 8) :
    Sudoku.solve_unique g = none := by
  simp only [Sudoku.solve_unique]
  rw [if_pos ?_]
  rcases h with h | h
  · exact Or.inl h
  · exact Or.inr (lt_of_le_of_lt (countOnes16_le_dedup g) h)

theorem spec_c10_witness :
    ((emptyGrid.filter (fun n => n ≠ 0)).length < 17 ∨
      (emptyGrid.filter (fun n => n ≠ 0)).dedup.length < 8) ∧
      Sudoku.solve_unique emptyGrid = none :=
  ⟨Or.inl (by decide), spec_c10_solve_unique_early_none emptyGrid (Or.inl (by decide))⟩

/- ---------- C4: the remover does modify some invalid inputs ---------- -/

theorem phase2_cons (c1 c2 : Nat) (ps : List (Nat × Nat)) (s : Grid) :
    phase2 ((c1, c2) :: ps) s = phase2 ps (pairStep s c1 c2) := rfl

/-- C4: the claim fails on the code, which contradicts the doc comment of
`generate_unique_from` (src/sudoku.rs:143).  `corruptGrid` is invalid
(`count_at_most 2` is 0, hence not equal to 1), yet with the identity cell
order the paired phase blanks the two conflicting cells, the result is
accepted as uniquely solvable, and the function returns a grid different
from its input. -/
theorem spec_c4_remover_changes_invalid_input :
    Sudoku.count_at_most corruptGrid 2 = 0 ∧
      Sudoku.generate_unique_from (List.range 81) corruptGrid ≠ corruptGrid := by
  have hcount : Sudoku.count_at_most corruptGrid 2 = 0 := by decide
  refine ⟨hcount, ?_⟩
  have hph1 : phase1 (List.range 81) corruptGrid = corruptGrid := by decide
  have huniq2 : Sudoku.is_uniquely_solvable ((corruptGrid.set 20 0).set 21 0) = true := by
    decide
  have hps : pairStep corruptGrid 20 21 = (corruptGrid.set 20 0).set 21 0 := by
    simp only [pairStep]
    rw [if_pos huniq2]
  have hto : toPairs (((List.range 81).drop 20).take 30) =
      [(20,21),(22,23),(24,25),(26,27),(28,29),(30,31),(32,33),(34,35),(36,37),(38,39),
       (40,41),(42,43),(44,45),(46,47),(48,49)] := by decide
  have hfinal : Sudoku.is_uniquely_solvable
      (Sudoku.generate_unique_from (List.range 81) corruptGrid) = true := by
    simp only [Sudoku.generate_unique_from]
    rw [hph1, hto]
    apply foldl_tryRemove_uniq
    rw [phase2_cons, hps]
    exact phase2_uniq _ _ huniq2
  intro he
  rw [he, Sudoku.is_uniquely_solvable, beq_iff_eq, hcount] at hfinal
  exact absurd hfinal (by decide)

/- ---------- swap lists and the cell permutations they induce ---------- -/

theorem mem_pairIndices : ∀ (ps : List (Nat × Nat)) (i : Nat),
    i ∈ pairIndices ps ↔ ∃ p ∈ ps, i = p.1 ∨ i = p.2 := by
  intro ps
  induction ps with
  | nil => intro i; simp [pairIndices]
  | cons p ps ih =>
    intro i
    simp only [pairIndices, List.foldr_cons] at ih ⊢
    rw [List.mem_cons, List.mem_cons, ih]
    constructor
    · rintro (h | h | ⟨q, hq, hiq⟩)
      · exact ⟨p, List.mem_cons_self p ps, Or.inl h⟩
      · exact ⟨p, List.mem_cons_self p ps, Or.inr h⟩
      · exact ⟨q, List.mem_cons_of_mem p hq, hiq⟩
    · rintro ⟨q, hq, hiq⟩
      rcases List.mem_cons.mp hq with rfl | hq
      · rcases hiq with h | h
        · exact Or.inl h
        · exact Or.inr (Or.inl h)
      · exact Or.inr (Or.inr ⟨q, hq, hiq⟩)

theorem permOfPairs_not_mem {ps : List (Nat × Nat)} {k : Nat}
    (h : k ∉ pairIndices ps) : permOfPairs ps k = k := by
  unfold permOfPairs
  have hfind : ps.find? (fun p => p.1 == k || p.2 == k) = none := by
    rw [List.find?_eq_none]
    intro p hp hc
    rcases Bool.or_eq_true_iff.mp hc with hc | hc
    · exact h ((mem_pairIndices ps k).mpr ⟨p, hp, Or.inl (beq_iff_eq.mp hc).symm⟩)
    · exact h ((mem_pairIndices ps k).mpr ⟨p, hp, Or.inr (beq_iff_eq.mp hc).symm⟩)
  rw [hfind]

theorem permOfPairs_head1 {p : Nat × Nat} (ps : List (Nat × Nat)) {k : Nat} (h : p.1 = k) :
    permOfPairs (p :: ps) k = p.2 := by
  unfold permOfPairs
  rw [List.find?_cons_of_pos _ (by simp [h])]
  exact if_pos h

theorem permOfPairs_head2 {p : Nat × Nat} (ps : List (Nat × Nat)) {k : Nat}
    (h1 : p.1 ≠ k) (h2 : p.2 = k) : permOfPairs (p :: ps) k = p.1 := by
  unfold permOfPairs
  rw [List.find?_cons_of_pos _ (by simp [h2])]
  exact if_neg h1

theorem permOfPairs_cons_ne {p : Nat × Nat} {ps : List (Nat × Nat)} {k : Nat}
    (h1 : p.1 ≠ k) (h2 : p.2 ≠ k) : permOfPairs (p :: ps) k = permOfPairs ps k := by
  unfold permOfPairs
  rw [List.find?_cons_of_neg _ (by simp [h1, h2])]

theorem permOfPairs_cases (ps : List (Nat × Nat)) (k : Nat) :
    permOfPairs ps k = k ∨ permOfPairs ps k ∈ pairIndices ps := by
  rcases hfind : ps.find? (fun p => p.1 == k || p.2 == k) with _ | p
  · left
    unfold permOfPairs
    rw [hfind]
  · right
    have hp := List.mem_of_find?_eq_some hfind
    have hred : permOfPairs ps k = if p.1 = k then p.2 else p.1 := by
      unfold permOfPairs
      rw [hfind]
    rw [hred]
    by_cases h1 : p.1 = k
    · rw [if_pos h1]
      exact (mem_pairIndices ps p.2).mpr ⟨p, hp, Or.inr rfl⟩
    · rw [if_neg h1]
      exact (mem_pairIndices ps p.1).mpr ⟨p, hp, Or.inl rfl⟩

theorem cellGet_swapVals (g : Grid) (a b j : Nat) (ha : a < g.length) (hb : b < g.length) :
    cellGet (swapVals g a b) j =
      if j = b then cellGet g a else if j = a then cellGet g b else cellGet g j := by
  rw [swapVals]
  by_cases hjb : j = b
  · subst hjb
    rw [if_pos rfl, cellGet_set_self _ _ _ (by rw [List.length_set]; exact hb)]
  · rw [if_neg hjb, cellGet_set_ne _ b _ j hjb]
    by_cases hja : j = a
    · subst hja
      rw [if_pos rfl, cellGet_set_self _ _ _ ha]
    · rw [if_neg hja, cellGet_set_ne _ a _ j hja]

theorem swapVals_length (g : Grid) (a b : Nat) : (swapVals g a b).length = g.length := by
  rw [swapVals, List.length_set, List.length_set]

theorem applyPairs_length : ∀ (ps : List (Nat × Nat)) (g : Grid),
    (applyPairs ps g).length = g.length := by
  intro ps
  induction ps with
  | nil => intro g; rfl
  | cons p ps ih =>
    intro g
    have : applyPairs (p :: ps) g = applyPairs ps (swapVals g p.1 p.2) := rfl
    rw [this, ih, swapVals_length]

theorem applyPairs_cellGet : ∀ (ps : List (Nat × Nat)) (g : Grid),
    (pairIndices ps).Nodup → (∀ i ∈ pairIndices ps, i < 81) → g.length = 81 →
    ∀ k, cellGet (applyPairs ps g) k = cellGet g (permOfPairs ps k) := by
  intro ps
  induction ps with
  | nil =>
    intro g _ _ _ k
    rw [permOfPairs_not_mem (by simp [pairIndices])]
    rfl
  | cons p ps ih =>
    intro g hnd hbound hlen k
    have hind : pairIndices (p :: ps) = p.1 :: p.2 :: pairIndices ps := rfl
    rw [hind] at hnd hbound
    have h1 : p.1 < g.length := by rw [hlen]; exact hbound p.1 (List.mem_cons_self _ _)
    have h2 : p.2 < g.length := by
      rw [hlen]
      exact hbound p.2 (List.mem_cons_of_mem _ (List.mem_cons_self _ _))
    rw [List.nodup_cons] at hnd
    have hne : p.1 ≠ p.2 := fun e => hnd.1 (e ▸ List.mem_cons_self p.2 _)
    have hn1 : p.1 ∉ pairIndices ps := fun hm =>
      hnd.1 (List.mem_cons_of_mem _ hm)
    have hn2 : p.2 ∉ pairIndices ps := (List.nodup_cons.mp hnd.2).1
    have happ : applyPairs (p :: ps) g = applyPairs ps (swapVals g p.1 p.2) := rfl
    have hswlen : (swapVals g p.1 p.2).length = 81 := by rw [swapVals_length, hlen]
    rw [happ, ih (swapVals g p.1 p.2) (List.nodup_cons.mp hnd.2).2
      (fun i hi => hbound i (List.mem_cons_of_mem _ (List.mem_cons_of_mem _ hi))) hswlen k]
    by_cases hk1 : k = p.1
    · have hperm : permOfPairs ps k = k := permOfPairs_not_mem (fun hm => hn1 (hk1 ▸ hm))
      rw [hperm, cellGet_swapVals g p.1 p.2 k h1 h2,
        if_neg (fun e => hne (hk1.symm.trans e)), if_pos hk1,
        permOfPairs_head1 ps hk1.symm]
    · by_cases hk2 : k = p.2
      · have hperm : permOfPairs ps k = k := permOfPairs_not_mem (fun hm => hn2 (hk2 ▸ hm))
        rw [hperm, cellGet_swapVals g p.1 p.2 k h1 h2, if_pos hk2,
          permOfPairs_head2 ps (fun e => hk1 e.symm) hk2.symm]
      · rw [permOfPairs_cons_ne (fun e => hk1 e.symm) (fun e => hk2 e.symm)]
        have hx : permOfPairs ps k ≠ p.1 := by
          rcases permOfPairs_cases ps k with he | hm
          · rw [he]; exact hk1
          · exact fun e => hn1 (e ▸ hm)
        have hy : permOfPairs ps k ≠ p.2 := by
          rcases permOfPairs_cases ps k with he | hm
          · rw [he]; exact hk2
          · exact fun e => hn2 (e ▸ hm)
        rw [cellGet_swapVals g p.1 p.2 _ h1 h2, if_neg hy, if_neg hx]

theorem pairsOk_spec {ps : List (Nat × Nat)} (h : pairsOk ps = true) :
    (pairIndices ps).Nodup ∧ (∀ i ∈ pairIndices ps, i < 81) ∧
      (∀ k, k < 81 → permOfPairs ps (permOfPairs ps k) = k) ∧
      (∀ i, i < 81 → ∀ j, j < 81 →
        sameHouse (permOfPairs ps i) (permOfPairs ps j) = sameHouse i j) := by
  rw [pairsOk] at h
  simp only [Bool.and_eq_true, decide_eq_true_eq, List.all_eq_true, List.mem_range,
    beq_iff_eq] at h
  obtain ⟨⟨⟨hnd, hb⟩, hinv⟩, hhouse⟩ := h
  refine ⟨hnd, ?_, hinv, hhouse⟩
  intro i hi
  rw [mem_pairIndices] at hi
  obtain ⟨p, hp, hip⟩ := hi
  rcases hip with rfl | rfl
  · exact (hb p hp).1
  · exact (hb p hp).2

theorem permOfPairs_lt {ps : List (Nat × Nat)}
    (hb : ∀ i ∈ pairIndices ps, i < 81) {k : Nat} (hk : k < 81) :
    permOfPairs ps k < 81 := by
  rcases permOfPairs_cases ps k with he | hm
  · rw [he]; exact hk
  · exact hb _ hm

/- ---------- relabel-and-reindex transforms preserve the solution count ---------- -/

theorem gridMap_length (σ π : Nat → Nat) (g : Grid) : (gridMap σ π g).length = 81 := by
  simp [gridMap]

theorem cellGet_gridMap (σ π : Nat → Nat) (g : Grid) {i : Nat} (hi : i < 81) :
    cellGet (gridMap σ π g) i = σ (cellGet g (π i)) := by
  simp [gridMap, cellGet, List.getElem?_map, List.getElem?_range hi]

theorem sol_cells_le {g s : Grid} (hs : s ∈ solutionSet g) : ∀ i, cellGet s i ≤ 9 := by
  obtain ⟨hlen, hval, _⟩ := hs
  intro i
  by_cases hi : i < 81
  · exact ((validatedComplete_iff s).mp hval i hi).1.2
  · rw [cellGet_of_le (by omega)]
    omega

theorem sol_map (σ π : Nat → Nat)
    (hσ0 : σ 0 = 0) (hσlt : ∀ v, v < 10 → σ v < 10)
    (hσ'σ : ∀ v, v < 10 → ∀ w, w < 10 → σ v = σ w → v = w)
    (hπlt : ∀ i, i < 81 → π i < 81)
    (hπinj : ∀ i, i < 81 → ∀ j, j < 81 → π i = π j → i = j)
    (hhouse : ∀ i, i < 81 → ∀ j, j < 81 → sameHouse (π i) (π j) = sameHouse i j)
    {g s : Grid} (hs : s ∈ solutionSet g) :
    gridMap σ π s ∈ solutionSet (gridMap σ π g) := by
  obtain ⟨hslen, hsval, hsext⟩ := hs
  have hvc := (validatedComplete_iff s).mp hsval
  have hs9 : ∀ i, cellGet s i ≤ 9 := sol_cells_le ⟨hslen, hsval, hsext⟩
  refine ⟨gridMap_length σ π s, ?_, ?_⟩
  · rw [validatedComplete_iff]
    intro i hi
    have hπi := hπlt i hi
    rw [cellGet_gridMap σ π s hi]
    constructor
    · have h19 := (hvc (π i) hπi).1
      constructor
      · by_cases hz : σ (cellGet s (π i)) = 0
        · exfalso
          have h0 : cellGet s (π i) = 0 :=
            hσ'σ (cellGet s (π i)) (by omega) 0 (by omega) (by rw [hz, hσ0])
          omega
        · omega
      · have := hσlt (cellGet s (π i)) (by omega)
        omega
    · intro j hj hji hh
      rw [cellGet_gridMap σ π s hj]
      intro heq
      have hπj := hπlt j hj
      have hsij : cellGet s (π j) = cellGet s (π i) :=
        hσ'σ _ (by have := hs9 (π j); omega) _ (by have := hs9 (π i); omega) heq
      have hπne : π j ≠ π i := fun e => hji (hπinj j hj i hi e)
      have hsh : sameHouse (π i) (π j) = true := by rw [hhouse i hi j hj]; exact hh
      exact (hvc (π i) hπi).2 (π j) hπj hπne hsh hsij
  · intro j hj
    by_cases hj81 : j < 81
    · rw [cellGet_gridMap σ π g hj81] at hj ⊢
      rw [cellGet_gridMap σ π s hj81]
      have hgz : cellGet g (π j) ≠ 0 := fun e => hj (by rw [e, hσ0])
      rw [hsext (π j) hgz]
    · exfalso
      apply hj
      rw [cellGet_of_le (by rw [gridMap_length]; omega)]

theorem gridMap_collapse (σ σ' π π' : Nat → Nat)
    (hσ'σ : ∀ v, v < 10 → σ' (σ v) = v)
    (hπ'lt : ∀ i, i < 81 → π' i < 81)
    (hππ' : ∀ i, i < 81 → π (π' i) = i)
    {g : Grid} (hglen : g.length = 81) (hg : ∀ i, cellGet g i ≤ 9) :
    ∀ j, cellGet (gridMap σ' π' (gridMap σ π g)) j = cellGet g j := by
  intro j
  by_cases hj : j < 81
  · rw [cellGet_gridMap σ' π' _ hj, cellGet_gridMap σ π g (hπ'lt j hj), hππ' j hj]
    exact hσ'σ (cellGet g j) (by have := hg j; omega)
  · rw [cellGet_of_le (by rw [gridMap_length]; omega), cellGet_of_le (by omega)]

theorem ncard_gridMap (σ σ' π π' : Nat → Nat)
    (hσ0 : σ 0 = 0)
    (hσlt : ∀ v, v < 10 → σ v < 10)
    (hσ'lt : ∀ v, v < 10 → σ' v < 10)
    (hσ'σ : ∀ v, v < 10 → σ' (σ v) = v)
    (hσσ' : ∀ v, v < 10 → σ (σ' v) = v)
    (hπlt : ∀ i, i < 81 → π i < 81)
    (hπ'lt : ∀ i, i < 81 → π' i < 81)
    (hπ'π : ∀ i, i < 81 → π' (π i) = i)
    (hππ' : ∀ i, i < 81 → π (π' i) = i)
    (hhouse : ∀ i, i < 81 → ∀ j, j < 81 → sameHouse (π i) (π j) = sameHouse i j)
    (g : Grid) (hglen : g.length = 81) (hg : ∀ i, cellGet g i ≤ 9) :
    (solutionSet (gridMap σ π g)).ncard = (solutionSet g).ncard := by
  have hσ'0 : σ' 0 = 0 := by
    have := hσ'σ 0 (by omega)
    rwa [hσ0] at this
  have hσinj : ∀ v, v < 10 → ∀ w, w < 10 → σ v = σ w → v = w := by
    intro v hv w hw he
    rw [← hσ'σ v hv, ← hσ'σ w hw, he]
  have hσ'inj : ∀ v, v < 10 → ∀ w, w < 10 → σ' v = σ' w → v = w := by
    intro v hv w hw he
    rw [← hσσ' v hv, ← hσσ' w hw, he]
  have hπinj : ∀ i, i < 81 → ∀ j, j < 81 → π i = π j → i = j := by
    intro i hi j hj he
    rw [← hπ'π i hi, ← hπ'π j hj, he]
  have hπ'inj : ∀ i, i < 81 → ∀ j, j < 81 → π' i = π' j → i = j := by
    intro i hi j hj he
    rw [← hππ' i hi, ← hππ' j hj, he]
  have hhouse' : ∀ i, i < 81 → ∀ j, j < 81 →
      sameHouse (π' i) (π' j) = sameHouse i j := by
    intro i hi j hj
    have := hhouse (π' i) (hπ'lt i hi) (π' j) (hπ'lt j hj)
    rw [hππ' i hi, hππ' j hj] at this
    exact this.symm
  have hmaple : ∀ i, cellGet (gridMap σ π g) i ≤ 9 := by
    intro i
    by_cases hi : i < 81
    · rw [cellGet_gridMap σ π g hi]
      have := hσlt (cellGet g (π i)) (by have := hg (π i); omega)
      omega
    · rw [cellGet_of_le (by rw [gridMap_length]; omega)]
      omega
  have himg : solutionSet (gridMap σ π g) = (gridMap σ π) '' (solutionSet g) := by
    ext t
    constructor
    · intro ht
      have hs : gridMap σ' π' t ∈ solutionSet (gridMap σ' π' (gridMap σ π g)) :=
        sol_map σ' π' hσ'0 hσ'lt hσ'inj hπ'lt hπ'inj hhouse' ht
      rw [solutionSet_congr (gridMap_collapse σ σ' π π' hσ'σ hπ'lt hππ' hglen hg)] at hs
      refine ⟨gridMap σ' π' t, hs, ?_⟩
      have ht9 : ∀ i, cellGet t i ≤ 9 := sol_cells_le ht
      have htlen : t.length = 81 := ht.1
      apply ext_cellGet (by rw [gridMap_length, htlen])
      exact gridMap_collapse σ' σ π' π hσσ' hπlt hπ'π htlen ht9
    · rintro ⟨s, hs, rfl⟩
      exact sol_map σ π hσ0 hσlt hσinj hπlt hπinj hhouse hs
  rw [himg]
  apply Set.ncard_image_of_injOn
  intro s1 h1 s2 h2 he
  have h19 : ∀ i, cellGet s1 i ≤ 9 := sol_cells_le h1
  have h29 : ∀ i, cellGet s2 i ≤ 9 := sol_cells_le h2
  apply ext_cellGet (by rw [h1.1, h2.1])
  intro j
  have e1 := gridMap_collapse σ σ' π π' hσ'σ hπ'lt hππ' h1.1 h19 j
  have e2 := gridMap_collapse σ σ' π π' hσ'σ hπ'lt hππ' h2.1 h29 j
  rw [← e1, ← e2, he]

theorem cellGet_le_of_forall_mem {g : Grid} (hle : ∀ v ∈ g, v ≤ 9) :
    ∀ i, cellGet g i ≤ 9 := by
  intro i
  by_cases hi : i < g.length
  · rw [cellGet, List.getElem?_eq_getElem hi]
    exact hle _ (List.getElem_mem hi)
  · rw [cellGet_of_le (by omega)]
    omega

theorem applyPairs_ok {ps : List (Nat × Nat)} (hok : pairsOk ps = true)
    {g : Grid} (h : Ok81 g) :
    Ok81 (applyPairs ps g) ∧
      ∀ limit, Sudoku.count_at_most (applyPairs ps g) limit
        = Sudoku.count_at_most g limit := by
  obtain ⟨hnd, hbound, hinv, hhouse⟩ := pairsOk_spec hok
  obtain ⟨hlen, hle⟩ := h
  have hpw : ∀ k, cellGet (applyPairs ps g) k
      = cellGet (gridMap id (permOfPairs ps) g) k := by
    intro k
    by_cases hk : k < 81
    · rw [applyPairs_cellGet ps g hnd hbound hlen k, cellGet_gridMap id _ g hk]
      rfl
    · rw [cellGet_of_le (by rw [applyPairs_length, hlen]; omega),
        cellGet_of_le (by rw [gridMap_length]; omega)]
  have haplen : (applyPairs ps g).length = 81 := by rw [applyPairs_length, hlen]
  have hple : ∀ i, cellGet (applyPairs ps g) i ≤ 9 := by
    intro i
    rw [hpw i]
    by_cases hi : i < 81
    · rw [cellGet_gridMap id _ g hi]
      exact hle _
    · rw [cellGet_of_le (by rw [gridMap_length]; omega)]
      omega
  refine ⟨⟨haplen, hple⟩, fun limit => ?_⟩
  rw [count_at_most_eq haplen limit, count_at_most_eq hlen limit, solutionSet_congr hpw]
  congr 1
  exact ncard_gridMap id id (permOfPairs ps) (permOfPairs ps) rfl
    (fun v hv => hv) (fun v hv => hv) (fun v _ => rfl) (fun v _ => rfl)
    (fun i hi => permOfPairs_lt hbound hi) (fun i hi => permOfPairs_lt hbound hi)
    hinv hinv hhouse g hlen hle

theorem applyPairs_append (ps1 ps2 : List (Nat × Nat)) (g : Grid) :
    applyPairs (ps1 ++ ps2) g = applyPairs ps2 (applyPairs ps1 g) :=
  List.foldl_append _ _ ps1 ps2

theorem swap_cols_ok {g : Grid} (h : Ok81 g) (c1 c2 : Nat)
    (hok : c1 = c2 ∨ pairsOk (colPairs c1 c2) = true) :
    Ok81 (Sudoku.swap_cols g c1 c2) ∧
      ∀ limit, Sudoku.count_at_most (Sudoku.swap_cols g c1 c2) limit
        = Sudoku.count_at_most g limit := by
  unfold Sudoku.swap_cols
  by_cases he : c1 = c2
  · rw [if_pos he]
    exact ⟨h, fun _ => rfl⟩
  · rw [if_neg he]
    rcases hok with h' | h'
    · exact absurd h' he
    · exact applyPairs_ok h' h

theorem swap_rows_ok {g : Grid} (h : Ok81 g) (r1 r2 : Nat)
    (hok : r1 = r2 ∨ pairsOk (rowPairs r1 r2) = true) :
    Ok81 (Sudoku.swap_rows g r1 r2) ∧
      ∀ limit, Sudoku.count_at_most (Sudoku.swap_rows g r1 r2) limit
        = Sudoku.count_at_most g limit := by
  unfold Sudoku.swap_rows
  by_cases he : r1 = r2
  · rw [if_pos he]
    exact ⟨h, fun _ => rfl⟩
  · rw [if_neg he]
    rcases hok with h' | h'
    · exact absurd h' he
    · exact applyPairs_ok h' h

theorem transpose_ok {g : Grid} (h : Ok81 g) :
    Ok81 (Sudoku.transpose g) ∧
      ∀ limit, Sudoku.count_at_most (Sudoku.transpose g) limit
        = Sudoku.count_at_most g limit := by
  unfold Sudoku.transpose
  exact applyPairs_ok (by decide) h

theorem swap_stacks_eq_append (g : Grid) (s1 s2 : Nat) (h : s1 ≠ s2) :
    Sudoku.swap_stacks g s1 s2 =
      applyPairs (colPairs (s1*3) (s2*3) ++ colPairs (s1*3+1) (s2*3+1)
        ++ colPairs (s1*3+2) (s2*3+2)) g := by
  unfold Sudoku.swap_stacks Sudoku.swap_cols
  rw [if_neg h, if_neg (by omega : ¬ s1*3 = s2*3), if_neg (by omega : ¬ s1*3+1 = s2*3+1),
    if_neg (by omega : ¬ s1*3+2 = s2*3+2), applyPairs_append, applyPairs_append]

theorem swap_bands_eq_swap_stacks (g : Grid) (b1 b2 : Nat) :
    Sudoku.swap_bands g b1 b2 = Sudoku.swap_stacks g b1 b2 := rfl

theorem swap_stacks_ok {g : Grid} (h : Ok81 g) (s1 s2 : Nat)
    (hs1 : s1 < 3) (hs2 : s2 < 3) (hle : s1 ≤ s2) :
    Ok81 (Sudoku.swap_stacks g s1 s2) ∧
      ∀ limit, Sudoku.count_at_most (Sudoku.swap_stacks g s1 s2) limit
        = Sudoku.count_at_most g limit := by
  by_cases he : s1 = s2
  · unfold Sudoku.swap_stacks
    rw [if_pos he]
    exact ⟨h, fun _ => rfl⟩
  · rw [swap_stacks_eq_append g s1 s2 he]
    apply applyPairs_ok ?_ h
    interval_cases s1 <;> interval_cases s2 <;> first | (exact absurd rfl he) | decide

theorem shuffle_stacks_ok {g : Grid} (h : Ok81 g) (a b : Nat)
    (ha : a < 3) (hb1 : 1 ≤ b) (hb2 : b < 3) :
    Ok81 (Sudoku.shuffle_stacks a b g) ∧
      ∀ limit, Sudoku.count_at_most (Sudoku.shuffle_stacks a b g) limit
        = Sudoku.count_at_most g limit := by
  unfold Sudoku.shuffle_stacks
  obtain ⟨h1, c1⟩ := swap_stacks_ok h 0 a (by omega) ha (by omega)
  obtain ⟨h2, c2⟩ := swap_stacks_ok h1 1 b (by omega) hb2 hb1
  exact ⟨h2, fun limit => (c2 limit).trans (c1 limit)⟩

theorem shuffle_bands_ok {g : Grid} (h : Ok81 g) (a b : Nat)
    (ha : a < 3) (hb1 : 1 ≤ b) (hb2 : b < 3) :
    Ok81 (Sudoku.shuffle_bands a b g) ∧
      ∀ limit, Sudoku.count_at_most (Sudoku.shuffle_bands a b g) limit
        = Sudoku.count_at_most g limit := by
  unfold Sudoku.shuffle_bands
  rw [swap_bands_eq_swap_stacks, swap_bands_eq_swap_stacks]
  obtain ⟨h1, c1⟩ := swap_stacks_ok h 0 a (by omega) ha (by omega)
  obtain ⟨h2, c2⟩ := swap_stacks_ok h1 1 b (by omega) hb2 hb1
  exact ⟨h2, fun limit => (c2 limit).trans (c1 limit)⟩

theorem shuffle_cols_of_stack_ok {g : Grid} (h : Ok81 g) (a b stack : Nat)
    (hst : stack < 3) (ha1 : stack*3 ≤ a) (ha2 : a < stack*3+3)
    (hb1 : stack*3+1 ≤ b) (hb2 : b < stack*3+3) :
    Ok81 (Sudoku.shuffle_cols_of_stack a b stack g) ∧
      ∀ limit, Sudoku.count_at_most (Sudoku.shuffle_cols_of_stack a b stack g) limit
        = Sudoku.count_at_most g limit := by
  have hok1 : stack*3 = a ∨ pairsOk (colPairs (stack*3) a) = true := by
    interval_cases stack <;> interval_cases a <;> first | (left; rfl) | (right; decide)
  have hok2 : stack*3+1 = b ∨ pairsOk (colPairs (stack*3+1) b) = true := by
    interval_cases stack <;> interval_cases b <;> first | (left; rfl) | (right; decide)
  unfold Sudoku.shuffle_cols_of_stack
  obtain ⟨h1, c1⟩ := swap_cols_ok h (stack*3) a hok1
  obtain ⟨h2, c2⟩ := swap_cols_ok h1 (stack*3+1) b hok2
  exact ⟨h2, fun limit => (c2 limit).trans (c1 limit)⟩

theorem shuffle_rows_of_band_ok {g : Grid} (h : Ok81 g) (a b band : Nat)
    (hbd : band < 3) (ha1 : band*3 ≤ a) (ha2 : a < band*3+3)
    (hb1 : band*3+1 ≤ b) (hb2 : b < band*3+3) :
    Ok81 (Sudoku.shuffle_rows_of_band a b band g) ∧
      ∀ limit, Sudoku.count_at_most (Sudoku.shuffle_rows_of_band a b band g) limit
        = Sudoku.count_at_most g limit := by
  have hok1 : band*3 = a ∨ pairsOk (rowPairs (band*3) a) = true := by
    interval_cases band <;> interval_cases a <;> first | (left; rfl) | (right; decide)
  have hok2 : band*3+1 = b ∨ pairsOk (rowPairs (band*3+1) b) = true := by
    interval_cases band <;> interval_cases b <;> first | (left; rfl) | (right; decide)
  unfold Sudoku.shuffle_rows_of_band
  obtain ⟨h1, c1⟩ := swap_rows_ok h (band*3) a hok1
  obtain ⟨h2, c2⟩ := swap_rows_ok h1 (band*3+1) b hok2
  exact ⟨h2, fun limit => (c2 limit).trans (c1 limit)⟩

/- ---------- the digit relabelling is a permutation fixing 0 ---------- -/

theorem listSwap_eq_swapVals (ds : List Nat) (i j : Nat) : listSwap ds i j = swapVals ds i j :=
  rfl

theorem swapFn_inj {i j a b : Nat}
    (he : (if a = j then i else if a = i then j else a)
        = (if b = j then i else if b = i then j else b)) : a = b := by
  split_ifs at he <;> omega

theorem dsInv_listSwap {ds : List Nat} (h : dsInv ds) {i j : Nat}
    (hi1 : 1 ≤ i) (hi : i < 10) (hj1 : 1 ≤ j) (hj : j < 10) :
    dsInv (listSwap ds i j) := by
  obtain ⟨hlen, hval, hinj, h0⟩ := h
  have hil : i < ds.length := by omega
  have hjl : j < ds.length := by omega
  have hpw : ∀ k, cellGet (listSwap ds i j) k
      = cellGet ds (if k = j then i else if k = i then j else k) := by
    intro k
    rw [listSwap_eq_swapVals, cellGet_swapVals ds i j k hil hjl]
    split_ifs <;> rfl
  refine ⟨by rw [listSwap_eq_swapVals, swapVals_length]; exact hlen, ?_, ?_, ?_⟩
  · intro k hk
    rw [hpw k]
    split_ifs <;> [exact hval i hi; exact hval j hj; exact hval k hk]
  · intro a ha b hb he
    rw [hpw a, hpw b] at he
    have hfa : (if a = j then i else if a = i then j else a) < 10 := by
      split_ifs <;> omega
    have hfb : (if b = j then i else if b = i then j else b) < 10 := by
      split_ifs <;> omega
    exact swapFn_inj (hinj _ hfa _ hfb he)
  · rw [hpw 0, if_neg (by omega), if_neg (by omega)]
    exact h0

theorem lehmerLoop_dsInv : ∀ (n p : Nat) (ds : List Nat), n ≤ 9 →
    dsInv ds → dsInv (lehmerLoop n p ds)
  | 0, _, _ => fun _ h => h
  | n+1, p, ds => fun hn h => by
    have hmod : p % (n+1) < n+1 := Nat.mod_lt _ (by omega)
    exact lehmerLoop_dsInv n (p/(n+1)) _ (by omega)
      (dsInv_listSwap h (by omega) (by omega) (by omega) (by omega))

theorem digitPermOf_dsInv (p : Nat) : dsInv (digitPermOf p) :=
  lehmerLoop_dsInv 9 p _ (by omega) ⟨rfl, by decide, by decide, rfl⟩

theorem dsInv_surj {ds : List Nat} (h : dsInv ds) {v : Nat} (hv : v < 10) :
    ∃ k, k < 10 ∧ cellGet ds k = v := by
  obtain ⟨hlen, hval, hinj, _⟩ := h
  have hinj' : Set.InjOn (fun k => cellGet ds k) (Finset.range 10) := by
    intro a ha b hb he
    rw [Finset.mem_coe, Finset.mem_range] at ha hb
    exact hinj a ha b hb he
  have himg : (Finset.range 10).image (fun k => cellGet ds k) = Finset.range 10 := by
    apply Finset.eq_of_subset_of_card_le
    · intro x hx
      rw [Finset.mem_image] at hx
      obtain ⟨k, hk, he⟩ := hx
      rw [Finset.mem_range] at hk ⊢
      rw [← he]
      exact hval k hk
    · rw [Finset.card_image_of_injOn hinj', Finset.card_range]
  have hv' : v ∈ (Finset.range 10).image (fun k => cellGet ds k) := by
    rw [himg, Finset.mem_range]
    exact hv
  rw [Finset.mem_image] at hv'
  obtain ⟨k, hk, he⟩ := hv'
  exact ⟨k, Finset.mem_range.mp hk, he⟩

theorem dsInv_find_lt {ds : List Nat} (v : Nat) :
    ((List.range 10).find? (fun k => cellGet ds k == v)).getD 0 < 10 := by
  rcases hf : (List.range 10).find? (fun k => cellGet ds k == v) with _ | k
  · simp
  · have hm := List.mem_of_find?_eq_some hf
    rw [List.mem_range] at hm
    simpa using hm

theorem dsInv_find_left {ds : List Nat} (h : dsInv ds) {v : Nat} (hv : v < 10) :
    ((List.range 10).find? (fun k => cellGet ds k == cellGet ds v)).getD 0 = v := by
  rcases hf : (List.range 10).find? (fun k => cellGet ds k == cellGet ds v) with _ | k
  · exfalso
    rw [List.find?_eq_none] at hf
    exact hf v (List.mem_range.mpr hv) (by simp)
  · have hm := List.mem_of_find?_eq_some hf
    have hp := List.find?_some hf
    rw [List.mem_range] at hm
    rw [beq_iff_eq] at hp
    simpa using h.2.2.1 k hm v hv hp

theorem dsInv_find_right {ds : List Nat} (h : dsInv ds) {v : Nat} (hv : v < 10) :
    cellGet ds (((List.range 10).find? (fun k => cellGet ds k == v)).getD 0) = v := by
  obtain ⟨k0, hk0, he0⟩ := dsInv_surj h hv
  rcases hf : (List.range 10).find? (fun k => cellGet ds k == v) with _ | k
  · exfalso
    rw [List.find?_eq_none] at hf
    exact hf k0 (List.mem_range.mpr hk0) (by simp [he0])
  · have hp := List.find?_some hf
    rw [beq_iff_eq] at hp
    simpa using hp

theorem cellGet_map (f : Nat → Nat) (g : Grid) {i : Nat} (hi : i < g.length) :
    cellGet (g.map f) i = f (cellGet g i) := by
  rw [cellGet, cellGet, List.getElem?_map, List.getElem?_eq_getElem hi]
  simp

theorem shuffle_digits_ok (p : Nat) {g : Grid} (h : Ok81 g) :
    Ok81 (Sudoku.shuffle_digits p g) ∧
      ∀ limit, Sudoku.count_at_most (Sudoku.shuffle_digits p g) limit
        = Sudoku.count_at_most g limit := by
  obtain ⟨hlen, hle⟩ := h
  have hds := digitPermOf_dsInv p
  have hmaplen : (Sudoku.shuffle_digits p g).length = 81 := by
    rw [Sudoku.shuffle_digits, List.length_map, hlen]
  have hpw : ∀ k, cellGet (Sudoku.shuffle_digits p g) k
      = cellGet (gridMap (fun v => cellGet (digitPermOf p) v) id g) k := by
    intro k
    by_cases hk : k < 81
    · rw [cellGet_gridMap _ id g hk, Sudoku.shuffle_digits,
        cellGet_map _ g (by omega : k < g.length)]
      rfl
    · rw [cellGet_of_le (by omega : (Sudoku.shuffle_digits p g).length ≤ k),
        cellGet_of_le (by rw [gridMap_length]; omega)]
  have hple : ∀ i, cellGet (Sudoku.shuffle_digits p g) i ≤ 9 := by
    intro i
    by_cases hi : i < 81
    · rw [Sudoku.shuffle_digits, cellGet_map _ g (by omega : i < g.length)]
      have := hds.2.1 (cellGet g i) (by have := hle i; omega)
      omega
    · rw [cellGet_of_le (by omega)]
      omega
  refine ⟨⟨hmaplen, hple⟩, fun limit => ?_⟩
  rw [count_at_most_eq hmaplen limit, count_at_most_eq hlen limit, solutionSet_congr hpw]
  congr 1
  exact ncard_gridMap (fun v => cellGet (digitPermOf p) v)
    (fun v => ((List.range 10).find? (fun k => cellGet (digitPermOf p) k == v)).getD 0)
    id id hds.2.2.2 hds.2.1 (fun v _ => dsInv_find_lt v)
    (fun v hv => dsInv_find_left hds hv) (fun v hv => dsInv_find_right hds hv)
    (fun i hi => hi) (fun i hi => hi) (fun i _ => rfl) (fun i _ => rfl)
    (fun i _ j _ => rfl) g hlen hle

/-- C7: for every 81-cell grid with values at most 9, and every outcome of
the random draws made by `shuffle` (each within the range the source draws
it from), the shuffled grid has the same number of solutions as the input:
`count_at_most` agrees at every limit. -/
theorem spec_c7_shuffle_preserves_count (d : ShuffleDraws) (g : Grid)
    (hlen : g.length = 81) (hle : ∀ v ∈ g, v ≤ 9)
    (hband : d.band1 < 3 ∧ 1 ≤ d.band2 ∧ d.band2 < 3)
    (hstack : d.stack1 < 3 ∧ 1 ≤ d.stack2 ∧ d.stack2 < 3)
    (hc0 : d.col0a < 3 ∧ 1 ≤ d.col0b ∧ d.col0b < 3)
    (hc1 : 3 ≤ d.col1a ∧ d.col1a < 6 ∧ 4 ≤ d.col1b ∧ d.col1b < 6)
    (hc2 : 6 ≤ d.col2a ∧ d.col2a < 9 ∧ 7 ≤ d.col2b ∧ d.col2b < 9)
    (hr0 : d.row0a < 3 ∧ 1 ≤ d.row0b ∧ d.row0b < 3)
    (hr1 : 3 ≤ d.row1a ∧ d.row1a < 6 ∧ 4 ≤ d.row1b ∧ d.row1b < 6)
    (hr2 : 6 ≤ d.row2a ∧ d.row2a < 9 ∧ 7 ≤ d.row2b ∧ d.row2b < 9)
    (limit : Nat) :
    Sudoku.count_at_most (Sudoku.shuffle d g) limit = Sudoku.count_at_most g limit := by
  have h0 : Ok81 g := ⟨hlen, cellGet_le_of_forall_mem hle⟩
  obtain ⟨h1, c1⟩ := shuffle_digits_ok d.permDraw h0
  obtain ⟨h2, c2⟩ := shuffle_bands_ok h1 d.band1 d.band2 hband.1 hband.2.1 hband.2.2
  obtain ⟨h3, c3⟩ := shuffle_stacks_ok h2 d.stack1 d.stack2 hstack.1 hstack.2.1 hstack.2.2
  obtain ⟨h4, c4⟩ := shuffle_cols_of_stack_ok h3 d.col0a d.col0b 0 (by omega) (by omega)
    (by omega) (by omega) (by omega)
  obtain ⟨h5, c5⟩ := shuffle_rows_of_band_ok h4 d.row0a d.row0b 0 (by omega) (by omega)
    (by omega) (by omega) (by omega)
  obtain ⟨h6, c6⟩ := shuffle_cols_of_stack_ok h5 d.col1a d.col1b 1 (by omega) (by omega)
    (by omega) (by omega) (by omega)
  obtain ⟨h7, c7⟩ := shuffle_rows_of_band_ok h6 d.row1a d.row1b 1 (by omega) (by omega)
    (by omega) (by omega) (by omega)
  obtain ⟨h8, c8⟩ := shuffle_cols_of_stack_ok h7 d.col2a d.col2b 2 (by omega) (by omega)
    (by omega) (by omega) (by omega)
  obtain ⟨h9, c9⟩ := shuffle_rows_of_band_ok h8 d.row2a d.row2b 2 (by omega) (by omega)
    (by omega) (by omega) (by omega)
  simp only [Sudoku.shuffle]
  by_cases ht : d.doTranspose = true
  · rw [if_pos ht]
    obtain ⟨_, c10⟩ := transpose_ok h9
    exact ((((((((((c10 limit).trans (c9 limit)).trans (c8 limit)).trans (c7 limit)).trans
      (c6 limit)).trans (c5 limit)).trans (c4 limit)).trans (c3 limit)).trans
      (c2 limit)).trans (c1 limit))
  · rw [if_neg ht]
    exact (((((((((c9 limit).trans (c8 limit)).trans (c7 limit)).trans (c6 limit)).trans
      (c5 limit)).trans (c4 limit)).trans (c3 limit)).trans (c2 limit)).trans (c1 limit))

theorem spec_c7_witness :
    emptyGrid.length = 81 ∧ (∀ v ∈ emptyGrid, v ≤ 9) ∧
      Sudoku.count_at_most
        (Sudoku.shuffle ⟨0, 0, 1, 0, 1, 0, 1, 3, 4, 6, 7, 0, 1, 3, 4, 6, 7, false⟩ emptyGrid) 3
        = Sudoku.count_at_most emptyGrid 3 :=
  ⟨by decide, by decide,
    spec_c7_shuffle_preserves_count ⟨0, 0, 1, 0, 1, 0, 1, 3, 4, 6, 7, 0, 1, 3, 4, 6, 7, false⟩
      emptyGrid (by decide) (by decide) (by decide) (by decide) (by decide) (by decide)
      (by decide) (by decide) (by decide) (by decide) 3⟩

/-- C6: the band-shuffle step does not permute horizontal bands: `swap_bands`
as written in the source swaps column groups.  On a grid whose only clue is a
1 at cell 0, swapping bands 0 and 1 moves the clue within row 0 to cell 3
(column 3), while cell 27 (row 3), which a swap of whole horizontal bands
would fill with that clue, stays empty. -/
theorem spec_c6_swap_bands_swaps_columns :
    cellGet oneCellGrid 0 = 1 ∧ cellGet oneCellGrid 30 = 0 ∧
      cellGet (Sudoku.swap_bands oneCellGrid 0 1) 3 = 1 ∧
      cellGet (Sudoku.swap_bands oneCellGrid 0 1) 27 = 0 := by
  decide
